import Mathlib

/-!
# ec — echo canceller (`src/ec.c`)

A shallow embedding of `main` of `src/ec.c` and of the signal handler
`int_handler`, followed by the properties established about them.

* C `int` is a 32-bit two's-complement integer: values are `Int`, reduced with
  `wrap32` where the compiled program computes in 32 bits. Signed overflow is
  undefined in C; each of the two arithmetic lines of `main` is given the value
  the compiled program computes (see `frame_size` and `wait_us`).
* The option loop of `main` is a fold over the successive results of
  `getopt` (option character and `optarg`).
* The part of `main` from the delay aligner to `exit(0)` (lines 195–239) is
  a step function on an explicit state with a program counter; the hardware
  audio engine, the FIFO writer and the delivery of `SIGINT` are actions of
  the environment that a schedule interleaves with the steps of `main`.
-/

namespace Ec

/-! ## C integer arithmetic -/

/-- Reduction of a mathematical integer to the 32-bit two's-complement range of C `int`. -/
def wrap32 (x : Int) : Int := (x + 2147483648) % 4294967296 - 2147483648

/-- C `int` multiplication. -/
def cMul (a b : Int) : Int := wrap32 (a * b)

/-- C `int` division: the quotient is truncated towards zero. -/
def cDiv (a b : Int) : Int := wrap32 (Int.tdiv a b)

/-- Line 152 of `main`: `int frame_size = sample_rate * 10 / 1000; // 10 ms`.
The product is divided by a constant. When `sample_rate * 10` does not fit an `int` the
C expression is undefined, and the compiled program evaluates the line as
`sample_rate / 100`; so the product is taken exactly and the quotient truncated towards
zero. For every `int` sample rate the result fits an `int` (`frame_size_fits_int`). -/
def frame_size (sample_rate : Int) : Int := Int.tdiv (sample_rate * 10) 1000

/-- Line 193 of `main`: `int wait_us = frame_size * 1000000 / sample_rate / 2;`.
The product is divided by a variable and the compiled program computes it in 32 bits,
so an overflowing product is reduced with `wrap32`. -/
def wait_us (sample_rate : Int) : Int :=
  cDiv (cDiv (cMul (frame_size sample_rate) 1000000) sample_rate) 2

/-! ## Command line -/

/-- The lines of the usage text (lines 17–34 of `src/ec.c`). -/
def usageLines : List String :=
  [ "Usage:\n %s [options]\n",
    "Options:\n",
    " -i PCM            playback PCM (default)\n",
    " -o PCM            capture PCM (default)\n",
    " -r rate           sample rate (16000)\n",
    " -c channels       recording channels (2)\n",
    " -b size           buffer size (262144)\n",
    " -d delay          system delay between playback and capture (0)\n",
    " -f filter_length  AEC filter length (2048)\n",
    " -s                save audio to /tmp/playback.raw, /tmp/recording.raw and /tmp/out.raw\n",
    " -D                daemonize\n",
    " -h                display this help text\n",
    "Note:\n",
    " Access audio I/O through named pipes (/tmp/ec.input for playback and /tmp/ec.output for recording)\n",
    "  `cat audio.raw > /tmp/ec.input` to play audio\n",
    "  `cat /tmp/ec.output > out.raw` to get recording audio\n",
    " Only support mono playback\n" ]

/-- The usage text: the concatenation of its lines. -/
def usage : String := String.join usageLines

/-- The local variables of `main` set by the option loop, with the two device
globals `g_capture_device` and `g_playback_device` of the audio module. -/
structure Options where
  input_channels : Int
  output_channels : Int
  sample_rate : Int
  buffer_size : Int
  delay : Int
  filter_length : Int
  save_audio : Int
  daemonize : Int
  g_capture_device : String
  g_playback_device : String
deriving DecidableEq, Repr

/-- Lines 60–68 of `main`: the initial values of the locals. The initial values of
the device globals are defined by the audio module and are taken as arguments. -/
def initialOptions (capture_device playback_device : String) : Options :=
  { input_channels := 2
    output_channels := 1
    sample_rate := 16000
    buffer_size := 1024 * 16
    delay := 0
    filter_length := 1024 * 2
    save_audio := 0
    daemonize := 0
    g_capture_device := capture_device
    g_playback_device := playback_device }

/-- The values a digit string denotes, most significant digit first. -/
def digitsValue : List Char → Int → Int
  | [], acc => acc
  | c :: cs, acc =>
    if c.isDigit then digitsValue cs (acc * 10 + ((c.toNat - 48 : Nat) : Int)) else acc

/-- The C library `isspace` in the C locale: space, `\t`, `\n`, `\v`, `\f`, `\r`. -/
def isspace (c : Char) : Bool :=
  c.toNat = 32 || (9 ≤ c.toNat && c.toNat ≤ 13)

/-- The saturation of the C library `strtol` to the range of a 64-bit `long`. -/
def strtolClamp (x : Int) : Int :=
  max (-9223372036854775808) (min x 9223372036854775807)

/-- The C library `atoi`, which is `(int) strtol(s, NULL, 10)`: leading white space, an
optional sign, then decimal digits up to the first other character; the value saturates
at the bounds of `long` and is then converted to `int`. -/
def atoi (s : String) : Int :=
  match s.toList.dropWhile isspace with
  | '-' :: cs => wrap32 (strtolClamp (- digitsValue cs 0))
  | '+' :: cs => wrap32 (strtolClamp (digitsValue cs 0))
  | cs => wrap32 (strtolClamp (digitsValue cs 0))

/-- One pass of the body of the option loop (lines 72–110): the `switch` on the
character returned by `getopt`, with `optarg`. `Except.error c` is `exit(c)`. -/
def handleOption (o : Options) (opt : Char) (optarg : String) : Except Int Options :=
  match opt with
  | 'b' => .ok { o with buffer_size := atoi optarg }
  | 'c' => .ok { o with input_channels := atoi optarg }
  | 'd' => .ok { o with delay := atoi optarg }
  | 'D' => .ok { o with daemonize := 1 }
  | 'f' => .ok { o with filter_length := atoi optarg }
  | 'h' => .error 0
  | 'i' => .ok { o with g_capture_device := optarg }
  | 'o' => .ok { o with g_playback_device := optarg }
  | 'r' => .ok { o with sample_rate := atoi optarg }
  | 's' => .ok { o with save_audio := 1 }
  | '?' => .error 1
  | _ => .ok o

/-- The option loop of `main` (lines 70–111), over the successive results of
`getopt(argc, argv, "b:c:d:Df:hi:o:r:s")` until it returns `-1`. -/
def parseOptions : List (Char × String) → Options → Except Int Options
  | [], o => .ok o
  | (opt, optarg) :: rest, o =>
    match handleOption o opt optarg with
    | .ok o' => parseOptions rest o'
    | .error c => .error c

/-- The defaults stated in the usage text, in the order sample rate, recording
channels, buffer size, delay, filter length. -/
structure DocumentedDefaults where
  sample_rate : Int
  channels : Int
  buffer_size : Int
  delay : Int
  filter_length : Int
deriving DecidableEq, Repr

/-- The values between parentheses in the lines `-r`, `-c`, `-b`, `-d`, `-f` of `usage`. -/
def usageDefaults : DocumentedDefaults :=
  { sample_rate := 16000, channels := 2, buffer_size := 262144, delay := 0, filter_length := 2048 }

/-- The configuration values `main` uses, read off the parsed options. -/
def Options.defaultsView (o : Options) : DocumentedDefaults :=
  { sample_rate := o.sample_rate, channels := o.input_channels, buffer_size := o.buffer_size,
    delay := o.delay, filter_length := o.filter_length }

/-! ## Ring buffers -/

/-- One element of a ring buffer: the samples of one sampling instant, one per channel. -/
abbrev Elem := List Int

/-- A block of consecutive elements: the contents of a scratch buffer of `main`. -/
abbrev Frame := List Elem

/-- Modelled from the spec: the bounded ring buffer (`PaUtilRingBuffer`, whose
implementation is not in `src/`). The write index and the read index increase
monotonically; the storage, addressed modulo the capacity, is represented by the
list of every element accepted so far, oldest first, so that the write index is the
length of that list and the elements still held are those from `readIndex` on. -/
structure RingBuffer where
  capacity : Nat
  written : List Elem
  readIndex : Nat
deriving DecidableEq, Repr

/-- Modelled from the spec: the write index of a ring buffer (missing from `src/`). -/
def RingBuffer.writeIndex (rb : RingBuffer) : Nat := rb.written.length

/-- Modelled from the spec: `available_to_read()` is write index minus read index
(`PaUtil_GetRingBufferReadAvailable`, missing from `src/`). -/
def PaUtil_GetRingBufferReadAvailable (rb : RingBuffer) : Nat := rb.writeIndex - rb.readIndex

/-- Modelled from the spec: `available_to_write()` is capacity minus available-to-read
(`PaUtil_GetRingBufferWriteAvailable`, missing from `src/`). -/
def PaUtil_GetRingBufferWriteAvailable (rb : RingBuffer) : Nat :=
  rb.capacity - PaUtil_GetRingBufferReadAvailable rb

/-- Modelled from the spec: `read(buffer, count)` copies up to `count` elements out of
the ring from the read index and advances the read index by the number copied
(`PaUtil_ReadRingBuffer`, missing from `src/`). Returns the ring and the elements copied. -/
def PaUtil_ReadRingBuffer (rb : RingBuffer) (count : Nat) : RingBuffer × List Elem :=
  let k := min count (PaUtil_GetRingBufferReadAvailable rb)
  ({ rb with readIndex := rb.readIndex + k }, (rb.written.drop rb.readIndex).take k)

/-- Modelled from the spec: `write(buffer, count)` copies up to `count` elements into the
ring, only as many as there are free slots, and advances the write index by the number
copied (`PaUtil_WriteRingBuffer`, missing from `src/`). Returns the ring and that number. -/
def PaUtil_WriteRingBuffer (rb : RingBuffer) (data : List Elem) (count : Nat) : RingBuffer × Nat :=
  let k := min count (PaUtil_GetRingBufferWriteAvailable rb)
  ({ rb with written := rb.written ++ data.take k }, (data.take k).length)

/-- Modelled from the spec: `advance_read(count)` discards `count` elements without
copying them out (`PaUtil_AdvanceRingBufferReadIndex`, missing from `src/`). -/
def PaUtil_AdvanceRingBufferReadIndex (rb : RingBuffer) (count : Nat) : RingBuffer :=
  { rb with readIndex := rb.readIndex + count }

/-- The effect on a scratch buffer of copying `got` to its start: the elements
beyond the copied ones keep their earlier contents. -/
def copyInto (scratch : Frame) (got : List Elem) : Frame := got ++ scratch.drop got.length

/-! ## The pipeline of `main` -/

/-- The three polling waits of `main`. -/
inductive Wait
  | align
  | capture
  | played
deriving DecidableEq, Repr

/-- The observable actions of `main` and of `int_handler`, in the order they happen. -/
inductive Event
  | usleep (site : Wait) (us : Int)
  | advance (count : Nat)
  | readCapture (got : List Elem)
  | readPlayed (got : List Elem)
  | cancel (near far out : Frame)
  | fwrite (near far out : Frame)
  | writeProcessed (frame : Frame) (accepted : Nat)
  | caught (signal : Int)
  | teardown
deriving DecidableEq, Repr

/-- The program points of `main` from line 195 on. -/
inductive Pc
  | alignTest
  | alignSleep
  | alignAdvance
  | loopTest
  | capTest
  | capSleep
  | capRead
  | plyTest
  | plySleep
  | plyRead
  | cancel
  | save
  | write
  | finish
  | exited
deriving DecidableEq, Repr

/-- The values fixed before line 195, and the echo-cancellation transform
`speex_echo_cancellation` (an external library). The transform keeps internal state
between calls, so its output is a function of the arguments of the earlier calls,
oldest first, and of the near-end and far-end frames of this call. -/
structure Params where
  frame_size : Int
  delay : Int
  wait_us : Int
  input_channels : Int
  output_channels : Int
  fp_far : Bool
  speex_echo_cancellation : List (Frame × Frame) → Frame → Frame → Frame

/-- The state of the process: `g_is_quit`, the ring buffers `g_ringbuffer[CAPTURE_INDEX]`,
`g_ringbuffer[PLAYED_INDEX]` and `g_ringbuffer[PROCESSED_INDEX]`, the scratch
buffers `near`, `far`, `out`, and the actions performed so far. -/
structure State where
  pc : Pc
  g_is_quit : Int
  capture : RingBuffer
  played : RingBuffer
  processed : RingBuffer
  near : Frame
  far : Frame
  out : Frame
  trace : List Event
deriving DecidableEq, Repr

/-- Lines 43–48: `int_handler` prints the signal number and sets `g_is_quit = 1`. -/
def int_handler (signal : Int) (s : State) : State :=
  { s with trace := s.trace ++ [Event.caught signal], g_is_quit := 1 }

/-- The arguments of the transform calls made so far, oldest first. -/
def callsOf : List Event → List (Frame × Frame)
  | [] => []
  | Event.cancel near far _ :: es => (near, far) :: callsOf es
  | _ :: es => callsOf es

/-- The C condition `available < n` between the ring's count and an `int`. -/
def availLt (rb : RingBuffer) (n : Int) : Bool :=
  decide (((PaUtil_GetRingBufferReadAvailable rb : Nat) : Int) < n)

/-- One statement (or one evaluation of a loop condition) of `main`, lines 195–239.
An element count passed to a ring buffer operation is an `int`; a negative count is
outside the contract of the ring buffer and is taken as 0 (`Int.toNat`). -/
def step (p : Params) (s : State) : State :=
  match s.pc with
  | .alignTest =>
    -- line 196: while (PaUtil_GetRingBufferReadAvailable(CAPTURE) < delay)
    if availLt s.capture p.delay then { s with pc := .alignSleep } else { s with pc := .alignAdvance }
  | .alignSleep =>
    -- line 198: usleep(wait_us);
    { s with pc := .alignTest, trace := s.trace ++ [Event.usleep Wait.align p.wait_us] }
  | .alignAdvance =>
    -- line 200: PaUtil_AdvanceRingBufferReadIndex(CAPTURE, delay);
    { s with pc := .loopTest
             capture := PaUtil_AdvanceRingBufferReadIndex s.capture p.delay.toNat
             trace := s.trace ++ [Event.advance p.delay.toNat] }
  | .loopTest =>
    -- line 202: while (!g_is_quit)
    if s.g_is_quit = 0 then { s with pc := .capTest } else { s with pc := .finish }
  | .capTest =>
    -- line 204: while (!g_is_quit && PaUtil_GetRingBufferReadAvailable(CAPTURE) < frame_size)
    if s.g_is_quit = 0 && availLt s.capture p.frame_size then { s with pc := .capSleep }
    else { s with pc := .capRead }
  | .capSleep =>
    -- line 206: usleep(wait_us);
    { s with pc := .capTest, trace := s.trace ++ [Event.usleep Wait.capture p.wait_us] }
  | .capRead =>
    -- line 208: PaUtil_ReadRingBuffer(CAPTURE, near, frame_size);
    let r := PaUtil_ReadRingBuffer s.capture p.frame_size.toNat
    { s with pc := .plyTest
             capture := r.1
             near := copyInto s.near r.2
             trace := s.trace ++ [Event.readCapture r.2] }
  | .plyTest =>
    -- line 210: while (!g_is_quit && PaUtil_GetRingBufferReadAvailable(PLAYED) < frame_size)
    if s.g_is_quit = 0 && availLt s.played p.frame_size then { s with pc := .plySleep }
    else { s with pc := .plyRead }
  | .plySleep =>
    -- line 212: usleep(wait_us);
    { s with pc := .plyTest, trace := s.trace ++ [Event.usleep Wait.played p.wait_us] }
  | .plyRead =>
    -- line 214: PaUtil_ReadRingBuffer(PLAYED, far, frame_size);
    let r := PaUtil_ReadRingBuffer s.played p.frame_size.toNat
    { s with pc := .cancel
             played := r.1
             far := copyInto s.far r.2
             trace := s.trace ++ [Event.readPlayed r.2] }
  | .cancel =>
    -- line 216: speex_echo_cancellation(echo_state, near, far, out);
    let o := p.speex_echo_cancellation (callsOf s.trace) s.near s.far
    { s with pc := .save, out := o, trace := s.trace ++ [Event.cancel s.near s.far o] }
  | .save =>
    -- lines 218–222: if (fp_far) { fwrite(near ...); fwrite(far ...); fwrite(out ...); }
    if p.fp_far then { s with pc := .write, trace := s.trace ++ [Event.fwrite s.near s.far s.out] }
    else { s with pc := .write }
  | .write =>
    -- line 224: PaUtil_WriteRingBuffer(PROCESSED, out, frame_size);
    let r := PaUtil_WriteRingBuffer s.processed s.out p.frame_size.toNat
    { s with pc := .loopTest
             processed := r.1
             trace := s.trace ++ [Event.writeProcessed s.out r.2] }
  | .finish =>
    -- lines 227–239: close the files, free the buffers, audio_stop(), exit(0)
    { s with pc := .exited, trace := s.trace ++ [Event.teardown] }
  | .exited => s

/-- What can happen next: `main` executes its next statement, `SIGINT` is delivered,
the audio engine appends elements to CAPTURE or to PLAYED, or the FIFO writer takes
elements out of PROCESSED. -/
inductive Act
  | tick
  | sigint (signal : Int)
  | hwCapture (xs : List Elem)
  | hwPlayed (xs : List Elem)
  | drain (count : Nat)
deriving DecidableEq, Repr

/-- The effect of one action on the state. -/
def act (p : Params) (s : State) : Act → State
  | .tick => step p s
  | .sigint n => if s.pc = .exited then s else int_handler n s
  | .hwCapture xs => { s with capture := (PaUtil_WriteRingBuffer s.capture xs xs.length).1 }
  | .hwPlayed xs => { s with played := (PaUtil_WriteRingBuffer s.played xs xs.length).1 }
  | .drain n => { s with processed := (PaUtil_ReadRingBuffer s.processed n).1 }

/-- The state after a schedule of actions. -/
def exec (p : Params) (sched : List Act) (s : State) : State := sched.foldl (act p) s

/-- The state at line 195: the rings as the audio module left them, `g_is_quit` as
found, and the scratch buffers zeroed by `calloc` (lines 167–169). -/
def startState (p : Params) (g_is_quit : Int) (capture played processed : RingBuffer) : State :=
  { pc := .alignTest
    g_is_quit := g_is_quit
    capture := capture
    played := played
    processed := processed
    near := List.replicate p.frame_size.toNat (List.replicate p.input_channels.toNat 0)
    far := List.replicate p.frame_size.toNat (List.replicate p.output_channels.toNat 0)
    out := List.replicate p.frame_size.toNat (List.replicate p.input_channels.toNat 0)
    trace := [] }

/-- The parameters `main` computes from the parsed options (lines 152, 154–165, 193). -/
def paramsOf (o : Options) (cancel : List (Frame × Frame) → Frame → Frame → Frame) : Params :=
  { frame_size := frame_size o.sample_rate
    delay := o.delay
    wait_us := wait_us o.sample_rate
    input_channels := o.input_channels
    output_channels := o.output_channels
    fp_far := decide (o.save_audio ≠ 0)
    speex_echo_cancellation := cancel }

/-! ## Counting the work of the loop -/

/-- The four actions of one iteration of the cancellation loop on the streams. -/
inductive Work
  | readCapture
  | readPlayed
  | transform
  | publish
deriving DecidableEq, Repr

/-- Whether an event is an action of the given kind. -/
def Event.isWork : Work → Event → Bool
  | .readCapture, .readCapture _ => true
  | .readPlayed, .readPlayed _ => true
  | .transform, .cancel _ _ _ => true
  | .publish, .writeProcessed _ _ => true
  | _, _ => false

/-- The number of actions of the given kind performed so far. -/
def workCount (w : Work) (t : List Event) : Nat := t.countP (Event.isWork w)

/-- Whether the iteration that is at program point `pc` still has the action `w` ahead
of it (`1`) or not (`0`); outside an iteration it is `0`. -/
def pending : Work → Pc → Nat
  | _, .capTest => 1
  | _, .capSleep => 1
  | _, .capRead => 1
  | .readCapture, _ => 0
  | _, .plyTest => 1
  | _, .plySleep => 1
  | _, .plyRead => 1
  | .readPlayed, _ => 0
  | _, .cancel => 1
  | .transform, _ => 0
  | .publish, .save => 1
  | .publish, .write => 1
  | .publish, _ => 0

/-- The number of sleeps of the given wait performed so far. -/
def sleepCount (site : Wait) (t : List Event) : Nat :=
  t.countP (fun e => match e with
    | .usleep w _ => decide (w = site)
    | _ => false)

/-! ## Concrete inputs -/

/-- A stand-in for the transform in concrete runs: it returns its near-end frame. -/
def passNear : List (Frame × Frame) → Frame → Frame → Frame := fun _ near _ => near

/-- The elements `base, base + 1, …` (`count` of them), each value repeated on every channel. -/
def numbered (count channels : Nat) (base : Int) : List Elem :=
  (List.range count).map (fun k => List.replicate channels (base + (k : Int)))

/-- A ring buffer that has accepted `xs` and from which nothing has been read. -/
def ringOf (capacity : Nat) (xs : List Elem) : RingBuffer :=
  { capacity := capacity, written := xs, readIndex := 0 }

/-- The options of the concrete scenario of the spec: sample rate 16000, two input
channels, delay 320 (so that the frame size is 160). -/
def scenarioOptions : Options :=
  { initialOptions "default" "default" with delay := 320 }

/-- The parameters `main` derives from `scenarioOptions`. -/
def scenarioParams : Params := paramsOf scenarioOptions passNear

/-- The scenario at line 195: CAPTURE holds the samples numbered 0..999 on both channels,
PLAYED holds 1000 far-end samples numbered from 5000, PROCESSED is empty. -/
def scenarioStart : State :=
  startState scenarioParams 0 (ringOf 16384 (numbered 1000 2 0)) (ringOf 16384 (numbered 1000 1 5000))
    (ringOf 16384 [])

/-- A small configuration: sample rate 200 (frame size 2), delay 3. -/
def smallParams : Params :=
  paramsOf { initialOptions "default" "default" with sample_rate := 200, delay := 3 } passNear

/-- The small configuration at line 195: CAPTURE holds the 8 samples 0..7 on both
channels, PLAYED holds the 8 far-end samples 100..107, PROCESSED is empty. -/
def smallStart : State :=
  startState smallParams 0 (ringOf 1024 (numbered 8 2 0)) (ringOf 1024 (numbered 8 1 100))
    (ringOf 1024 [])

/-- `main` executes `n` statements with no action of the environment in between. -/
def ticks (n : Nat) : List Act := List.replicate n Act.tick

/-! ## Observations on the aligner -/

/-- The elements delivered by a read of CAPTURE. -/
def Event.captureGot : Event → Option (List Elem)
  | .readCapture got => some got
  | _ => none

/-- The elements delivered by the first read of CAPTURE, if there has been one. -/
def firstCaptureRead (t : List Event) : Option (List Elem) :=
  (t.filterMap Event.captureGot).head?

/-- The count of an `advance_read` call. -/
def Event.advanceCount : Event → Option Nat
  | .advance n => some n
  | _ => none

/-- The counts of the `advance_read` calls made so far, oldest first. -/
def advances (t : List Event) : List Nat := t.filterMap Event.advanceCount

/-- Whether a program point belongs to the delay aligner (lines 196–200). -/
def inAligner : Pc → Bool
  | .alignTest => true
  | .alignSleep => true
  | .alignAdvance => true
  | _ => false

/-- The invariant of the aligner for the delay `D`: before the advance nothing is read
and the read index of CAPTURE is 0; the advance happens with `D` elements present;
after it, it has happened once with count `D`, and the first read of CAPTURE starts at
the element of index `D`; with `D = 0` the aligner does not sleep. -/
def AlignInv (D : Nat) (s : State) : Prop :=
  (inAligner s.pc = true →
    s.capture.readIndex = 0 ∧ advances s.trace = [] ∧ firstCaptureRead s.trace = none) ∧
  (s.pc = Pc.alignAdvance → D ≤ s.capture.written.length) ∧
  (inAligner s.pc = false →
    advances s.trace = [D] ∧ D ≤ s.capture.written.length ∧
    (firstCaptureRead s.trace = none → s.capture.readIndex = D) ∧
    (∀ got, firstCaptureRead s.trace = some got → got <+: s.capture.written.drop D)) ∧
  (D = 0 → sleepCount Wait.align s.trace = 0 ∧ s.pc ≠ Pc.alignSleep)

/-- The number of statements the aligner still has to execute once enough elements
are available. -/
def alignRank : Pc → Nat
  | .alignSleep => 3
  | .alignTest => 2
  | .alignAdvance => 1
  | _ => 0

/-- The elements delivered by the reads of CAPTURE so far, oldest first. -/
def captureReads (t : List Event) : List (List Elem) := t.filterMap Event.captureGot

/-- The `k`-th block (from 0) of `F` consecutive elements of a stream, starting at `start`. -/
def block (xs : List Elem) (start F k : Nat) : Frame := (xs.drop (start + k * F)).take F

/-- The elements delivered by a read of PLAYED. -/
def Event.playedGot : Event → Option (List Elem)
  | .readPlayed got => some got
  | _ => none

/-- The elements delivered by the reads of PLAYED so far, oldest first. -/
def playedReads (t : List Event) : List (List Elem) := t.filterMap Event.playedGot

/-- Whether an action of the environment is the delivery of a signal. -/
def Act.isSigint : Act → Bool
  | .sigint _ => true
  | _ => false

/-- The number of reads of CAPTURE made beyond the number of transform calls, at a
program point: 1 between the read of CAPTURE and the transform call of an iteration. -/
def readCaptureAhead : Pc → Nat
  | .plyTest => 1
  | .plySleep => 1
  | .plyRead => 1
  | .cancel => 1
  | _ => 0

/-- The number of reads of PLAYED made beyond the number of transform calls, at a
program point: 1 between the read of PLAYED and the transform call of an iteration. -/
def readPlayedAhead : Pc → Nat
  | .cancel => 1
  | _ => 0

/-- The number of writes to PROCESSED that are behind the number of transform calls, at a
program point: 1 between the transform call and the write of an iteration. -/
def publishBehind : Pc → Nat
  | .save => 1
  | .write => 1
  | _ => 0

/-- The invariant of `main` while no stop has been requested, for delay `D` and frame
size `F`: the reads of CAPTURE delivered, in order, the blocks of `F` elements of the
stream from index `D`, the reads of PLAYED the blocks of `F` elements of its stream, and
the transform calls received those blocks pairwise; the read indices and the scratch
buffers agree with the reads made; the numbers of reads, calls and writes differ as the
program point says; `main` has not left the loop. -/
structure PairInv (D F : Nat) (s : State) : Prop where
  quit : s.g_is_quit = 0
  nearLen : s.near.length = F
  farLen : s.far.length = F
  calls : callsOf s.trace = (List.range (callsOf s.trace).length).map
    (fun k => (block s.capture.written D F k, block s.played.written 0 F k))
  capReads : captureReads s.trace = (List.range (captureReads s.trace).length).map
    (fun k => block s.capture.written D F k)
  plyReads : playedReads s.trace = (List.range (playedReads s.trace).length).map
    (fun k => block s.played.written 0 F k)
  capIndex : s.capture.readIndex = (advances s.trace).sum + (captureReads s.trace).length * F
  plyIndex : s.played.readIndex = (playedReads s.trace).length * F
  capBound : s.capture.readIndex ≤ s.capture.written.length
  plyBound : s.played.readIndex ≤ s.played.written.length
  nearEq : ∀ k, (captureReads s.trace).length = k + 1 → s.near = block s.capture.written D F k
  farEq : ∀ k, (playedReads s.trace).length = k + 1 → s.far = block s.played.written 0 F k
  adv : advances s.trace = if inAligner s.pc = true then [] else [D]
  alignCalls : inAligner s.pc = true → (callsOf s.trace).length = 0
  capAhead : (captureReads s.trace).length = (callsOf s.trace).length + readCaptureAhead s.pc
  plyAhead : (playedReads s.trace).length = (callsOf s.trace).length + readPlayedAhead s.pc
  pub : workCount Work.publish s.trace + publishBehind s.pc = (callsOf s.trace).length
  alignReady : s.pc = Pc.alignAdvance → D ≤ s.capture.written.length
  capReady : s.pc = Pc.capRead → s.capture.readIndex + F ≤ s.capture.written.length
  plyReady : s.pc = Pc.plyRead → s.played.readIndex + F ≤ s.played.written.length
  inLoop : s.pc ≠ Pc.finish ∧ s.pc ≠ Pc.exited

/-! ## Arithmetic of the frame size and of the poll interval -/

theorem wrap32_of_inRange (x : Int) (lo : -2147483648 ≤ x) (hi : x ≤ 2147483647) :
    wrap32 x = x := by
  unfold wrap32; omega

theorem cDiv_of_nonneg (a b : Int) (ha : 0 ≤ a) (hb : 0 ≤ b) (hi : a ≤ 2147483647) :
    cDiv a b = a / b := by
  unfold cDiv
  rw [Int.tdiv_eq_ediv ha hb]
  apply wrap32_of_inRange
  · have := Int.ediv_nonneg ha hb; omega
  · have := Int.ediv_le_self b ha; omega

theorem ediv_ediv_nonneg (a b c : Int) (ha : 0 ≤ a) (hb : 0 ≤ b) (hc : 0 ≤ c) :
    a / b / c = a / (b * c) := by
  lift a to ℕ using ha
  lift b to ℕ using hb
  lift c to ℕ using hc
  norm_cast
  exact Nat.div_div_eq_div_mul a b c

theorem frame_size_eq (r : Int) (h0 : 0 ≤ r) : frame_size r = r / 100 := by
  unfold frame_size
  rw [Int.tdiv_eq_ediv (by omega) (by omega)]
  omega

theorem frame_size_neg (r : Int) : frame_size (-r) = -frame_size r := by
  unfold frame_size
  rw [Int.neg_mul, Int.neg_tdiv]

theorem frame_size_fits_int (r : Int) (lo : -2147483648 ≤ r) (hi : r ≤ 2147483647) :
    -2147483648 ≤ frame_size r ∧ frame_size r ≤ 2147483647 ∧
    wrap32 (frame_size r) = frame_size r := by
  have hb : -2147483648 ≤ frame_size r ∧ frame_size r ≤ 2147483647 := by
    by_cases h : 0 ≤ r
    · rw [frame_size_eq r h]; omega
    · have e : frame_size r = -frame_size (-r) := by rw [frame_size_neg, neg_neg]
      rw [e, frame_size_eq (-r) (by omega)]; omega
  exact ⟨hb.1, hb.2, wrap32_of_inRange _ hb.1 hb.2⟩

theorem wait_us_eq (r : Int) (h0 : 0 < r) (h1 : r ≤ 214799) :
    wait_us r = (frame_size r * 1000000) / (2 * r) := by
  have hf := frame_size_eq r h0.le
  unfold wait_us cMul
  rw [hf]
  have hb : 0 ≤ r / 100 ∧ r / 100 ≤ 2147 := by omega
  rw [wrap32_of_inRange _ (by omega) (by omega),
    cDiv_of_nonneg _ _ (by omega) h0.le (by omega)]
  have h2 : 0 ≤ r / 100 * 1000000 / r := Int.ediv_nonneg (by omega) h0.le
  have h3 : r / 100 * 1000000 / r ≤ r / 100 * 1000000 := Int.ediv_le_self r (by omega)
  rw [cDiv_of_nonneg _ _ h2 (by omega) (by omega)]
  rw [ediv_ediv_nonneg _ _ _ (by omega) h0.le (by omega), mul_comm r 2]

theorem wait_us_of_hundred (r : Int) (h0 : 0 < r) (h1 : r ≤ 214799) (hd : r % 100 = 0) :
    wait_us r = 5000 := by
  rw [wait_us_eq r h0 h1, frame_size_eq r h0.le]
  obtain ⟨k, rfl⟩ := Int.dvd_of_emod_eq_zero hd
  have hk : 0 < k := by omega
  have e1 : 100 * k / 100 = k := by omega
  rw [e1]
  have e2 : 2 * (100 * k) = k * 200 := by ring
  rw [e2, Int.mul_ediv_mul_of_pos (1000000 : Int) 200 hk]
  norm_num

/-- C10 (amended): for every sample rate `r` with `0 < r ≤ 214799` (the rates for which
`frame_size * 1000000` fits a 32-bit `int`), `wait_us` is half of the duration of one frame
of `frame_size` samples at rate `r` in microseconds, rounded down, and it is 5000 when `r`
is a multiple of 100 (so for `r = 16000`). -/
theorem wait_us_is_half_frame (r : Int) (h0 : 0 < r) (h1 : r ≤ 214799) :
    wait_us r = (frame_size r * 1000000) / (2 * r) ∧ (r % 100 = 0 → wait_us r = 5000) ∧
      wait_us 16000 = 5000 :=
  ⟨wait_us_eq r h0 h1, wait_us_of_hundred r h0 h1, by decide⟩

/-- The poll interval statement above at the default sample rate 16000. -/
theorem wait_us_is_half_frame_witness :
    (0 : Int) < 16000 ∧ (16000 : Int) ≤ 214799 ∧
    (wait_us 16000 = (frame_size 16000 * 1000000) / (2 * 16000) ∧
      ((16000 : Int) % 100 = 0 → wait_us 16000 = 5000) ∧ wait_us 16000 = 5000) :=
  ⟨by decide, by decide, wait_us_is_half_frame 16000 (by decide) (by decide)⟩

/-- C10 as stated fails: the sample rate 214800 is a positive multiple of 100, its frame
size is 2148, and `frame_size * 1000000` overflows `int`, so `wait_us` is -4997, which is
neither 5000 nor half of the frame duration. -/
theorem wait_us_overflow :
    ¬ (∀ r : Int, 0 < r →
        wait_us r = (frame_size r * 1000000) / (2 * r) ∧ (r % 100 = 0 → wait_us r = 5000)) := by
  intro h
  have h1 := (h 214800 (by decide)).2 (by decide)
  revert h1
  decide

/-! ## Command line -/

/-- C6: run with no options, `main` keeps the initial values of lines 60–68. They agree
with the usage text for the sample rate, the channels, the delay and the filter length;
the buffer size is `1024 * 16 = 16384`, where the usage text says 262144. -/
theorem default_buffer_size_is_16384 (capture_device playback_device : String) :
    parseOptions [] (initialOptions capture_device playback_device)
      = .ok (initialOptions capture_device playback_device) ∧
    (initialOptions capture_device playback_device).defaultsView
      = { usageDefaults with buffer_size := 16384 } ∧
    (initialOptions capture_device playback_device).defaultsView ≠ usageDefaults ∧
    " -b size           buffer size (262144)\n" ∈ usageLines := by
  refine ⟨rfl, rfl, ?_, by decide⟩
  intro h
  have hb : (1024 * 16 : Int) = 262144 := congrArg DocumentedDefaults.buffer_size h
  revert hb
  decide

/-- C7: the option `-i P` stores `P` in `g_capture_device` and leaves `g_playback_device`
as it was, and the option `-o P` stores `P` in `g_playback_device` and leaves
`g_capture_device` as it was, where the usage text says `-i` is the playback PCM and `-o`
the capture PCM. -/
theorem option_i_sets_capture_device (o : Options) (P : String) :
    parseOptions [('i', P)] o = .ok { o with g_capture_device := P } ∧
    parseOptions [('o', P)] o = .ok { o with g_playback_device := P } ∧
    " -i PCM            playback PCM (default)\n" ∈ usageLines ∧
    " -o PCM            capture PCM (default)\n" ∈ usageLines := by
  refine ⟨rfl, rfl, by decide, by decide⟩

/-! ## Executions -/

theorem exec_nil (p : Params) (s : State) : exec p [] s = s := rfl

theorem exec_cons (p : Params) (a : Act) (sched : List Act) (s : State) :
    exec p (a :: sched) s = exec p sched (act p s a) := rfl

theorem exec_append (p : Params) (xs ys : List Act) (s : State) :
    exec p (xs ++ ys) s = exec p ys (exec p xs s) := by
  simp [exec, List.foldl_append]

theorem step_g_is_quit (p : Params) (s : State) : (step p s).g_is_quit = s.g_is_quit := by
  unfold step
  split <;> (try split) <;> rfl

theorem act_g_is_quit_ne_zero (p : Params) (s : State) (a : Act) (h : s.g_is_quit ≠ 0) :
    (act p s a).g_is_quit ≠ 0 := by
  cases a with
  | tick => simpa [act, step_g_is_quit] using h
  | sigint n =>
    simp only [act]
    split
    · exact h
    · simp [int_handler]
  | hwCapture xs => exact h
  | hwPlayed xs => exact h
  | drain n => exact h

theorem workCount_append (w : Work) (t u : List Event) :
    workCount w (t ++ u) = workCount w t + workCount w u := by
  simp [workCount, List.countP_append]

theorem step_pending (p : Params) (w : Work) (s : State) (h : s.g_is_quit ≠ 0) :
    workCount w (step p s).trace + pending w (step p s).pc
      ≤ workCount w s.trace + pending w s.pc := by
  obtain ⟨pc, q, cap, ply, prc, near, far, out, tr⟩ := s
  simp only at h
  cases pc <;> cases w <;>
    simp [step, h, workCount_append, workCount, Event.isWork, pending] <;>
    split <;> simp [pending, Event.isWork]

theorem act_pending (p : Params) (w : Work) (s : State) (a : Act) (h : s.g_is_quit ≠ 0) :
    workCount w (act p s a).trace + pending w (act p s a).pc
      ≤ workCount w s.trace + pending w s.pc := by
  cases a with
  | tick => exact step_pending p w s h
  | sigint n =>
    simp only [act]
    split
    · exact le_refl _
    · cases w <;> simp [int_handler, workCount_append, workCount, Event.isWork]
  | hwCapture xs => exact le_refl _
  | hwPlayed xs => exact le_refl _
  | drain n => exact le_refl _

theorem exec_pending (p : Params) (w : Work) (sched : List Act) (s : State)
    (h : s.g_is_quit ≠ 0) :
    (exec p sched s).g_is_quit ≠ 0 ∧
    workCount w (exec p sched s).trace + pending w (exec p sched s).pc
      ≤ workCount w s.trace + pending w s.pc := by
  induction sched generalizing s with
  | nil => exact ⟨h, le_refl _⟩
  | cons a rest ih =>
    rw [exec_cons]
    have h1 := act_g_is_quit_ne_zero p s a h
    have h2 := act_pending p w s a h
    have h3 := ih (act p s a) h1
    exact ⟨h3.1, le_trans h3.2 h2⟩

theorem pending_le_one (w : Work) (pc : Pc) : pending w pc ≤ 1 := by
  cases w <;> cases pc <;> decide

theorem step_trace (p : Params) (s : State) : ∃ es, (step p s).trace = s.trace ++ es := by
  obtain ⟨pc, q, cap, ply, prc, near, far, out, tr⟩ := s
  cases pc <;> simp [step] <;> split <;> simp

theorem act_trace (p : Params) (s : State) (a : Act) :
    ∃ es, (act p s a).trace = s.trace ++ es := by
  cases a with
  | tick => exact step_trace p s
  | sigint n =>
    simp only [act]
    split
    · exact ⟨[], by simp⟩
    · exact ⟨[Event.caught n], rfl⟩
  | hwCapture xs => exact ⟨[], by simp [act]⟩
  | hwPlayed xs => exact ⟨[], by simp [act]⟩
  | drain n => exact ⟨[], by simp [act]⟩

theorem exec_trace (p : Params) (sched : List Act) (s : State) :
    ∃ es, (exec p sched s).trace = s.trace ++ es := by
  induction sched generalizing s with
  | nil => exact ⟨[], by simp [exec_nil]⟩
  | cons a rest ih =>
    rw [exec_cons]
    obtain ⟨e1, h1⟩ := act_trace p s a
    obtain ⟨e2, h2⟩ := ih (act p s a)
    exact ⟨e1 ++ e2, by rw [h2, h1, List.append_assoc]⟩

theorem workCount_mono (p : Params) (w : Work) (sched : List Act) (s : State) :
    workCount w s.trace ≤ workCount w (exec p sched s).trace := by
  obtain ⟨es, h⟩ := exec_trace p sched s
  rw [h, workCount_append]
  exact Nat.le_add_right _ _

/-! ## Shutdown -/

/-- C1 (amended): once `g_is_quit` is set, no new iteration of the loop begins. Along every
continuation, at most one further read of CAPTURE, one further read of PLAYED, one further
transform call and one further write to PROCESSED take place (those of the iteration that
was already past the loop test at line 202), and none at all when `main` is outside an
iteration: in the aligner, at the loop test, or past the loop. -/
theorem no_new_iteration_after_stop (p : Params) (s : State) (sched : List Act) (w : Work)
    (hq : s.g_is_quit ≠ 0) :
    (exec p sched s).g_is_quit ≠ 0 ∧
    workCount w (exec p sched s).trace ≤ workCount w s.trace + 1 ∧
    (s.pc ∈ [Pc.alignTest, Pc.alignSleep, Pc.alignAdvance, Pc.loopTest, Pc.finish, Pc.exited] →
      workCount w (exec p sched s).trace = workCount w s.trace) := by
  obtain ⟨h1, h2⟩ := exec_pending p w sched s hq
  have h3 := pending_le_one w s.pc
  have h4 := workCount_mono p w sched s
  refine ⟨h1, by omega, ?_⟩
  intro hpc
  have h5 : pending w s.pc = 0 := by
    simp only [List.mem_cons, List.mem_singleton, List.not_mem_nil, or_false] at hpc
    rcases hpc with h | h | h | h | h | h <;> rw [h] <;> cases w <;> rfl
  omega

/-- The shutdown bound above in the small configuration, for a `SIGINT` that arrives
right after the loop test of the first iteration, followed by 12 statements of `main`. -/
theorem no_new_iteration_after_stop_witness :
    (act smallParams (exec smallParams (ticks 3) smallStart) (Act.sigint 2)).g_is_quit ≠ 0 ∧
    ((exec smallParams (ticks 12)
        (act smallParams (exec smallParams (ticks 3) smallStart) (Act.sigint 2))).g_is_quit ≠ 0 ∧
     workCount Work.transform (exec smallParams (ticks 12)
        (act smallParams (exec smallParams (ticks 3) smallStart) (Act.sigint 2))).trace
      ≤ workCount Work.transform
        (act smallParams (exec smallParams (ticks 3) smallStart) (Act.sigint 2)).trace + 1 ∧
     ((act smallParams (exec smallParams (ticks 3) smallStart) (Act.sigint 2)).pc
        ∈ [Pc.alignTest, Pc.alignSleep, Pc.alignAdvance, Pc.loopTest, Pc.finish, Pc.exited] →
      workCount Work.transform (exec smallParams (ticks 12)
        (act smallParams (exec smallParams (ticks 3) smallStart) (Act.sigint 2))).trace
      = workCount Work.transform
        (act smallParams (exec smallParams (ticks 3) smallStart) (Act.sigint 2)).trace)) :=
  ⟨by decide, no_new_iteration_after_stop smallParams _ (ticks 12) Work.transform (by decide)⟩

/-- C1 as stated fails, in two runs of the small configuration (frame size 2, delay 3,
8 elements in each input ring).
Run 1: `SIGINT` arrives after the loop test of the first iteration, with full frames
available; the iteration goes on to read both rings, call the transform and write.
Run 2: after two full iterations `main` is stalled in the wait on CAPTURE with 1
element available; `SIGINT` arrives; `main` then reads that single element, reads
PLAYED, calls the transform and writes to PROCESSED. -/
theorem work_after_stop :
    (let s1 := act smallParams (exec smallParams (ticks 3) smallStart) (Act.sigint 2)
     let s2 := exec smallParams (ticks 9) s1
     s1.pc = Pc.capTest ∧ s1.g_is_quit = 1 ∧ workCount Work.transform s1.trace = 0 ∧
     workCount Work.readCapture s2.trace = 1 ∧ workCount Work.readPlayed s2.trace = 1 ∧
     workCount Work.transform s2.trace = 1 ∧ workCount Work.publish s2.trace = 1 ∧
     s2.pc = Pc.exited) ∧
    (let s1 := act smallParams (exec smallParams (ticks 20) smallStart) (Act.sigint 2)
     let s2 := exec smallParams (ticks 10) s1
     s1.pc = Pc.capSleep ∧ s1.g_is_quit = 1 ∧
     PaUtil_GetRingBufferReadAvailable s1.capture = 1 ∧ smallParams.frame_size = 2 ∧
     workCount Work.transform s1.trace = 2 ∧ workCount Work.transform s2.trace = 3 ∧
     workCount Work.readCapture s2.trace = 3 ∧ workCount Work.publish s2.trace = 3 ∧
     s2.trace.getLast? = some Event.teardown ∧
     Event.readCapture [[7, 7]] ∈ s2.trace ∧
     Event.cancel [[7, 7], [6, 6]] [[104], [105]] [[7, 7], [6, 6]] ∈ s2.trace ∧
     s2.pc = Pc.exited) := by
  decide

theorem int_handler_iterate_eq (signal : Int) (s : State) (n : Nat) :
    (int_handler signal)^[n + 1] s
      = { s with g_is_quit := 1
                 trace := s.trace ++ List.replicate (n + 1) (Event.caught signal) } := by
  induction n with
  | zero => rfl
  | succ k ih =>
    rw [Function.iterate_succ_apply', ih]
    simp only [int_handler, List.append_assoc, State.mk.injEq, true_and, and_true]
    rw [← List.replicate_succ']

theorem int_handler_iterate (signal : Int) (s : State) (n : Nat) :
    ((int_handler signal)^[n + 1] s).g_is_quit = 1 ∧
    { (int_handler signal)^[n + 1] s with trace := [] }
      = { int_handler signal s with trace := [] } := by
  rw [int_handler_iterate_eq]
  exact ⟨rfl, rfl⟩

/-- C5: `int_handler` sets `g_is_quit` to 1 from any state; applying it `n + 1` times
leaves the same state as applying it once, apart from the text it has printed; no
statement of `main` changes the flag, so after a stop request it is 1 along every
schedule. -/
theorem stop_is_idempotent (p : Params) (signal : Int) (s : State) (n : Nat)
    (sched : List Act) :
    (int_handler signal s).g_is_quit = 1 ∧
    ((int_handler signal)^[n + 1] s).g_is_quit = 1 ∧
    { (int_handler signal)^[n + 1] s with trace := [] }
      = { int_handler signal s with trace := [] } ∧
    (step p s).g_is_quit = s.g_is_quit ∧
    (exec p (ticks n) s).g_is_quit = s.g_is_quit ∧
    (exec p sched (int_handler signal s)).g_is_quit = 1 := by
  refine ⟨rfl, (int_handler_iterate signal s n).1, (int_handler_iterate signal s n).2,
    step_g_is_quit p s, ?_, ?_⟩
  · induction n generalizing s with
    | zero => rfl
    | succ k ih =>
      show (exec p (Act.tick :: ticks k) s).g_is_quit = s.g_is_quit
      rw [exec_cons, ih]
      exact step_g_is_quit p s
  · have key : ∀ (l : List Act) (t : State), t.g_is_quit = 1 → (exec p l t).g_is_quit = 1 := by
      intro l
      induction l with
      | nil => intro t ht; exact ht
      | cons a rest ih =>
        intro t ht
        rw [exec_cons]
        apply ih
        cases a with
        | tick => simpa [act, step_g_is_quit] using ht
        | sigint m =>
          simp only [act]
          split
          · exact ht
          · rfl
        | hwCapture xs => exact ht
        | hwPlayed xs => exact ht
        | drain m => exact ht
    exact key sched _ rfl

/-! ## The polling waits -/

theorem loop_waits_observe_flag (p : Params) (s : State) (hq : s.g_is_quit ≠ 0) :
    (s.pc = Pc.capTest → (step p s).pc = Pc.capRead ∧ (step p s).trace = s.trace) ∧
    (s.pc = Pc.plyTest → (step p s).pc = Pc.plyRead ∧ (step p s).trace = s.trace) := by
  obtain ⟨pc, q, cap, ply, prc, near, far, out, tr⟩ := s
  simp only at hq
  constructor <;> intro h <;> simp only at h <;> subst h <;> simp [step, hq]

theorem align_stall_two_ticks (p : Params) (s : State) (h : s.pc = Pc.alignTest)
    (hav : availLt s.capture p.delay = true) :
    exec p [Act.tick, Act.tick] s
      = { s with trace := s.trace ++ [Event.usleep Wait.align p.wait_us] } := by
  obtain ⟨pc, q, cap, ply, prc, near, far, out, tr⟩ := s
  simp only at h hav
  subst h
  simp [exec, act, step, hav]

theorem sleepCount_append (site : Wait) (t u : List Event) :
    sleepCount site (t ++ u) = sleepCount site t + sleepCount site u := by
  simp [sleepCount, List.countP_append]

theorem align_stall (p : Params) (n : Nat) (s : State) (h : s.pc = Pc.alignTest)
    (hav : availLt s.capture p.delay = true) :
    (exec p (ticks (2 * n)) s).pc = Pc.alignTest ∧
    (exec p (ticks (2 * n)) s).g_is_quit = s.g_is_quit ∧
    (exec p (ticks (2 * n)) s).capture = s.capture ∧
    sleepCount Wait.align (exec p (ticks (2 * n)) s).trace
      = sleepCount Wait.align s.trace + n := by
  induction n generalizing s with
  | zero => exact ⟨h, rfl, rfl, rfl⟩
  | succ k ih =>
    have e : ticks (2 * (k + 1)) = [Act.tick, Act.tick] ++ ticks (2 * k) := by
      simp [ticks, List.replicate_succ, Nat.mul_succ]
    rw [e, exec_append, align_stall_two_ticks p s h hav]
    obtain ⟨h1, h2, h3, h4⟩ := ih { s with trace := s.trace ++ [Event.usleep Wait.align p.wait_us] } h hav
    refine ⟨h1, h2, h3, ?_⟩
    rw [h4, sleepCount_append]
    have e1 : sleepCount Wait.align [Event.usleep Wait.align p.wait_us] = 1 := by
      simp [sleepCount]
    omega

/-- C8: with `g_is_quit` set to any value `q` (1 after a stop request), delay 320 and an
empty CAPTURE ring, the wait of the delay aligner at line 196 goes to its `usleep`; after
`2 * n` statements it has slept `n` times and is at its test again, the flag unchanged. -/
theorem aligner_wait_ignores_flag (q : Int) (n : Nat) :
    (step scenarioParams
      (startState scenarioParams q (ringOf 16384 []) (ringOf 16384 []) (ringOf 16384 []))).pc
      = Pc.alignSleep ∧
    (exec scenarioParams (ticks (2 * n))
      (startState scenarioParams q (ringOf 16384 []) (ringOf 16384 []) (ringOf 16384 []))).pc
      = Pc.alignTest ∧
    (exec scenarioParams (ticks (2 * n))
      (startState scenarioParams q (ringOf 16384 []) (ringOf 16384 []) (ringOf 16384 []))).g_is_quit
      = q ∧
    sleepCount Wait.align (exec scenarioParams (ticks (2 * n))
      (startState scenarioParams q (ringOf 16384 []) (ringOf 16384 []) (ringOf 16384 []))).trace
      = n := by
  have hav : availLt (ringOf 16384 []) scenarioParams.delay = true := by decide
  obtain ⟨h1, h2, -, h4⟩ := align_stall scenarioParams n
    (startState scenarioParams q (ringOf 16384 []) (ringOf 16384 []) (ringOf 16384 [])) rfl hav
  refine ⟨?_, h1, h2, ?_⟩
  · simp [step, startState, hav]
  · rw [h4]; simp [startState, sleepCount]

/-! ## Delay alignment -/

theorem availLt_iff (rb : RingBuffer) (d : Int) (hd : 0 ≤ d) :
    availLt rb d = true ↔ PaUtil_GetRingBufferReadAvailable rb < d.toNat := by
  unfold availLt
  rw [decide_eq_true_iff]
  omega

theorem advances_append (t u : List Event) : advances (t ++ u) = advances t ++ advances u := by
  simp [advances, List.filterMap_append]

theorem firstCaptureRead_append (t : List Event) (e : Event) :
    firstCaptureRead (t ++ [e]) = (firstCaptureRead t).or e.captureGot := by
  unfold firstCaptureRead
  rw [List.filterMap_append]
  cases h : List.filterMap Event.captureGot t with
  | nil => cases h2 : e.captureGot <;> simp [List.filterMap, h2]
  | cons a l => simp

theorem alignInv_congr (D : Nat) (s t : State) (h : AlignInv D s)
    (hs : inAligner s.pc = false) (ht : inAligner t.pc = false)
    (hc : t.capture = s.capture) (ha : advances t.trace = advances s.trace)
    (hf : firstCaptureRead t.trace = firstCaptureRead s.trace)
    (hz : sleepCount Wait.align t.trace = sleepCount Wait.align s.trace) : AlignInv D t := by
  obtain ⟨-, -, h3, h4⟩ := h
  have a3 := h3 hs
  refine ⟨?_, ?_, fun _ => ?_, fun hd => ?_⟩
  · intro hh; rw [ht] at hh; cases hh
  · intro hh; rw [hh] at ht; cases ht
  · rw [hc, ha, hf]; exact a3
  · rw [hz]
    refine ⟨(h4 hd).1, ?_⟩
    intro hh; rw [hh] at ht; cases ht

theorem firstCaptureRead_append_other (t : List Event) (e : Event) (he : e.captureGot = none) :
    firstCaptureRead (t ++ [e]) = firstCaptureRead t := by
  rw [firstCaptureRead_append, he]
  cases firstCaptureRead t <;> rfl

theorem advances_append_other (t : List Event) (e : Event) (he : e.advanceCount = none) :
    advances (t ++ [e]) = advances t := by
  simp [advances, List.filterMap_append, he]

theorem sleepCount_append_other (site : Wait) (t : List Event) (e : Event)
    (he : ∀ us, e ≠ Event.usleep site us) : sleepCount site (t ++ [e]) = sleepCount site t := by
  rw [sleepCount_append]
  cases e <;> simp [sleepCount] at he ⊢
  exact he

theorem step_alignInv (p : Params) (s : State) (hD : 0 ≤ p.delay)
    (h : AlignInv p.delay.toNat s) : AlignInv p.delay.toNat (step p s) := by
  obtain ⟨pc, q, cap, ply, prc, near, far, out, tr⟩ := s
  have hinv := h
  obtain ⟨h1, h2, h3, h4⟩ := h
  simp only at h1 h2 h3 h4
  cases pc
  case alignTest =>
    have a1 := h1 rfl
    by_cases hav : availLt cap p.delay = true
    · simp only [step, hav, if_true]
      refine ⟨fun _ => a1, ?_, ?_, fun hd => ?_⟩
      · intro hh; cases hh
      · intro hh; cases hh
      · have := (availLt_iff cap p.delay hD).1 hav
        omega
    · have hge := mt (availLt_iff cap p.delay hD).2 hav
      simp only [step, hav, Bool.false_eq_true, if_false]
      simp only [PaUtil_GetRingBufferReadAvailable, RingBuffer.writeIndex] at hge
      refine ⟨fun _ => a1, fun _ => ?_, ?_, fun hd => ⟨(h4 hd).1, by simp⟩⟩
      · simp only at a1 ⊢
        omega
      · intro hh; cases hh
  case alignSleep =>
    have a1 := h1 rfl
    simp only [step]
    refine ⟨fun _ => ?_, ?_, ?_, fun hd => ?_⟩
    · simp only [advances_append, firstCaptureRead_append]
      rw [a1.2.1, a1.2.2]
      exact ⟨a1.1, rfl, rfl⟩
    · intro hh; cases hh
    · intro hh; cases hh
    · exact absurd rfl (h4 hd).2
  case alignAdvance =>
    have a1 := h1 rfl
    have a2 := h2 rfl
    simp only [step]
    refine ⟨?_, ?_, fun _ => ?_, fun hd => ?_⟩
    · intro hh; cases hh
    · intro hh; cases hh
    · simp only [advances_append, firstCaptureRead_append, PaUtil_AdvanceRingBufferReadIndex]
      simp only at a1 a2
      rw [a1.2.1, a1.2.2, a1.1]
      refine ⟨rfl, a2, fun _ => by simp, ?_⟩
      intro got hgot
      cases hgot
    · simp only [sleepCount_append]
      rw [(h4 hd).1]
      exact ⟨rfl, by simp⟩
  case capRead =>
    have a3 := h3 rfl
    simp only [step]
    refine ⟨?_, ?_, fun _ => ?_, fun hd => ?_⟩
    · intro hh; cases hh
    · intro hh; cases hh
    · simp only [PaUtil_ReadRingBuffer]
      rw [advances_append_other tr (Event.readCapture _) rfl, firstCaptureRead_append]
      refine ⟨a3.1, a3.2.1, ?_, ?_⟩
      · intro hn
        cases hf : firstCaptureRead tr with
        | none => rw [hf] at hn; cases hn
        | some g => rw [hf] at hn; cases hn
      · intro got hgot
        cases hf : firstCaptureRead tr with
        | none =>
          rw [hf] at hgot
          have hr := a3.2.2.1 hf
          simp only at hr
          simp only [Option.or, Event.captureGot, Option.some.injEq] at hgot
          subst hgot
          rw [hr]
          exact List.take_prefix _ _
        | some g =>
          rw [hf] at hgot
          simp only [Option.or, Option.some.injEq] at hgot
          subst hgot
          exact a3.2.2.2 _ hf
    · rw [sleepCount_append_other _ _ _ (by intro us hh; cases hh)]
      exact ⟨(h4 hd).1, by simp⟩
  case loopTest =>
    refine alignInv_congr _ _ _ hinv rfl ?_ ?_ ?_ ?_ ?_ <;>
      simp only [step] <;> split <;> rfl
  case capTest =>
    refine alignInv_congr _ _ _ hinv rfl ?_ ?_ ?_ ?_ ?_ <;>
      simp only [step] <;> split <;> rfl
  case plyTest =>
    refine alignInv_congr _ _ _ hinv rfl ?_ ?_ ?_ ?_ ?_ <;>
      simp only [step] <;> split <;> rfl
  case save =>
    refine alignInv_congr _ _ _ hinv rfl ?_ ?_ ?_ ?_ ?_ <;>
      simp only [step] <;> split <;>
      (first
        | rfl
        | exact advances_append_other _ _ rfl
        | exact firstCaptureRead_append_other _ _ rfl
        | exact sleepCount_append_other _ _ _ (by intro us hh; cases hh))
  case exited =>
    exact hinv
  all_goals
    refine alignInv_congr _ _ _ hinv rfl ?_ ?_ ?_ ?_ ?_ <;>
      simp only [step] <;>
      (first
        | rfl
        | exact advances_append_other _ _ rfl
        | exact firstCaptureRead_append_other _ _ rfl
        | exact sleepCount_append_other _ _ _ (by intro us hh; cases hh))

theorem write_written_grows (rb : RingBuffer) (xs : List Elem) (k : Nat) :
    rb.written <+: (PaUtil_WriteRingBuffer rb xs k).1.written ∧
    (PaUtil_WriteRingBuffer rb xs k).1.readIndex = rb.readIndex := by
  simp [PaUtil_WriteRingBuffer]

theorem hwCapture_alignInv (D : Nat) (s : State) (xs : List Elem) (h : AlignInv D s) :
    AlignInv D { s with capture := (PaUtil_WriteRingBuffer s.capture xs xs.length).1 } := by
  obtain ⟨h1, h2, h3, h4⟩ := h
  obtain ⟨⟨ys, hys⟩, hr⟩ := write_written_grows s.capture xs xs.length
  have hlen : s.capture.written.length
      ≤ (PaUtil_WriteRingBuffer s.capture xs xs.length).1.written.length := by
    rw [← hys, List.length_append]; omega
  refine ⟨fun hh => ?_, fun hh => ?_, fun hh => ?_, h4⟩
  · have a1 := h1 hh
    exact ⟨by rw [hr]; exact a1.1, a1.2.1, a1.2.2⟩
  · exact le_trans (h2 hh) hlen
  · have a3 := h3 hh
    refine ⟨a3.1, le_trans a3.2.1 hlen, fun hn => by rw [hr]; exact a3.2.2.1 hn, ?_⟩
    intro got hgot
    have hp := a3.2.2.2 got hgot
    simp only
    rw [← hys, List.drop_append_of_le_length a3.2.1]
    exact hp.trans (List.prefix_append _ _)

theorem act_alignInv (p : Params) (s : State) (a : Act) (hD : 0 ≤ p.delay)
    (h : AlignInv p.delay.toNat s) : AlignInv p.delay.toNat (act p s a) := by
  cases a with
  | tick => exact step_alignInv p s hD h
  | sigint n =>
    simp only [act]
    split
    · exact h
    · obtain ⟨h1, h2, h3, h4⟩ := h
      have e1 : advances (s.trace ++ [Event.caught n]) = advances s.trace :=
        advances_append_other _ _ rfl
      have e2 : firstCaptureRead (s.trace ++ [Event.caught n]) = firstCaptureRead s.trace :=
        firstCaptureRead_append_other _ _ rfl
      have e3 : sleepCount Wait.align (s.trace ++ [Event.caught n])
          = sleepCount Wait.align s.trace :=
        sleepCount_append_other _ _ _ (by intro us hh; cases hh)
      simp only [int_handler, AlignInv, e1, e2, e3]
      exact ⟨h1, h2, h3, h4⟩
  | hwCapture xs => exact hwCapture_alignInv _ s xs h
  | hwPlayed xs => exact h
  | drain n => exact h

theorem exec_alignInv (p : Params) (sched : List Act) (s : State) (hD : 0 ≤ p.delay)
    (h : AlignInv p.delay.toNat s) : AlignInv p.delay.toNat (exec p sched s) := by
  induction sched generalizing s with
  | nil => exact h
  | cons a rest ih =>
    rw [exec_cons]
    exact ih _ (act_alignInv p s a hD h)

theorem startState_alignInv (p : Params) (q : Int) (cap ply prc : RingBuffer)
    (h0 : cap.readIndex = 0) : AlignInv p.delay.toNat (startState p q cap ply prc) := by
  refine ⟨fun _ => ⟨h0, rfl, rfl⟩, ?_, ?_, fun _ => ⟨rfl, ?_⟩⟩
  · intro hh; cases hh
  · intro hh; cases hh
  · intro hh; cases hh

theorem step_written (p : Params) (s : State) :
    (step p s).capture.written = s.capture.written := by
  obtain ⟨pc, q, cap, ply, prc, near, far, out, tr⟩ := s
  cases pc <;> simp only [step] <;> (try split) <;> rfl

theorem act_written_grows (p : Params) (s : State) (a : Act) :
    s.capture.written <+: (act p s a).capture.written := by
  cases a with
  | tick => simp only [act, step_written]; exact List.prefix_refl _
  | sigint n =>
    simp only [act]
    split <;> exact List.prefix_refl _
  | hwCapture xs => exact (write_written_grows s.capture xs xs.length).1
  | hwPlayed xs => exact List.prefix_refl _
  | drain n => exact List.prefix_refl _

theorem exec_written_grows (p : Params) (sched : List Act) (s : State) :
    s.capture.written <+: (exec p sched s).capture.written := by
  induction sched generalizing s with
  | nil => exact List.prefix_refl _
  | cons a rest ih =>
    rw [exec_cons]
    exact (act_written_grows p s a).trans (ih _)

theorem step_alignRank (p : Params) (s : State) (hD : 0 ≤ p.delay)
    (h : AlignInv p.delay.toNat s) (hn : p.delay.toNat ≤ s.capture.written.length) :
    alignRank (step p s).pc ≤ alignRank s.pc - 1 := by
  obtain ⟨pc, q, cap, ply, prc, near, far, out, tr⟩ := s
  cases pc
  case alignTest =>
    have a1 := h.1 rfl
    simp only at a1 hn
    have hav : availLt cap p.delay = false := by
      rw [← Bool.not_eq_true, availLt_iff cap p.delay hD]
      simp only [PaUtil_GetRingBufferReadAvailable, RingBuffer.writeIndex]
      omega
    simp [step, hav, alignRank]
  all_goals (simp only [step]; (try split) <;> simp [alignRank])

theorem act_alignRank (p : Params) (s : State) (a : Act) (hD : 0 ≤ p.delay)
    (h : AlignInv p.delay.toNat s) (hn : p.delay.toNat ≤ s.capture.written.length) :
    alignRank (act p s a).pc ≤ alignRank s.pc - List.count Act.tick [a] := by
  cases a with
  | tick => simpa using step_alignRank p s hD h hn
  | sigint n =>
    simp only [act]
    split <;> simp [int_handler]
  | hwCapture xs => simp [act]
  | hwPlayed xs => simp [act]
  | drain n => simp [act]

theorem exec_alignRank (p : Params) (sched : List Act) (s : State) (hD : 0 ≤ p.delay)
    (h : AlignInv p.delay.toNat s) (hn : p.delay.toNat ≤ s.capture.written.length) :
    alignRank (exec p sched s).pc ≤ alignRank s.pc - List.count Act.tick sched := by
  induction sched generalizing s with
  | nil => simp [exec_nil]
  | cons a rest ih =>
    rw [exec_cons]
    have h1 := act_alignInv p s a hD h
    have h2 := act_alignRank p s a hD h hn
    have h3 : p.delay.toNat ≤ (act p s a).capture.written.length :=
      le_trans hn (act_written_grows p s a).length_le
    have h4 := ih (act p s a) h1 h3
    have h5 : List.count Act.tick (a :: rest)
        = List.count Act.tick [a] + List.count Act.tick rest := by
      rw [← List.count_append]; rfl
    omega

theorem alignRank_le_three (pc : Pc) : alignRank pc ≤ 3 := by
  cases pc <;> decide

theorem inAligner_of_alignRank (pc : Pc) (h : alignRank pc = 0) : inAligner pc = false := by
  cases pc <;> first | rfl | (exact absurd h (by decide))

theorem prefix_head_getElem (got l : List Elem) (D : Nat) (x : Elem)
    (hp : got <+: l.drop D) (hx : got.head? = some x) : l[D]? = some x := by
  obtain ⟨t, ht⟩ := hp
  cases got with
  | nil => cases hx
  | cons y ys =>
    simp only [List.head?_cons, Option.some.injEq] at hx
    subst hx
    have h1 : (l.drop D).head? = some y := by rw [← ht]; rfl
    rw [List.head?_drop] at h1
    exact h1

/-- C3: with a delay `D ≥ 0` and a CAPTURE ring read from index 0, along every schedule:
while the aligner runs the read index stays 0 and nothing is read; the aligner advances
only with at least `D` elements available; once it is over, the read index has been
advanced exactly once, by exactly `D`; the first block read from CAPTURE starts at the
element of index `D`, the `(D+1)`-th element written; once CAPTURE holds `D` elements,
three more statements of `main` complete the alignment; with `D = 0` the aligner never
sleeps and leaves the read index at 0. -/
theorem delay_alignment (p : Params) (q : Int) (cap ply prc : RingBuffer) (sched : List Act)
    (hD : 0 ≤ p.delay) (h0 : cap.readIndex = 0) :
    (inAligner (exec p sched (startState p q cap ply prc)).pc = true →
      (exec p sched (startState p q cap ply prc)).capture.readIndex = 0 ∧
      advances (exec p sched (startState p q cap ply prc)).trace = [] ∧
      firstCaptureRead (exec p sched (startState p q cap ply prc)).trace = none) ∧
    ((exec p sched (startState p q cap ply prc)).pc = Pc.alignAdvance →
      p.delay.toNat
        ≤ PaUtil_GetRingBufferReadAvailable (exec p sched (startState p q cap ply prc)).capture) ∧
    (inAligner (exec p sched (startState p q cap ply prc)).pc = false →
      advances (exec p sched (startState p q cap ply prc)).trace = [p.delay.toNat] ∧
      p.delay.toNat ≤ (exec p sched (startState p q cap ply prc)).capture.written.length ∧
      (firstCaptureRead (exec p sched (startState p q cap ply prc)).trace = none →
        (exec p sched (startState p q cap ply prc)).capture.readIndex = p.delay.toNat)) ∧
    (∀ got, firstCaptureRead (exec p sched (startState p q cap ply prc)).trace = some got →
      got <+: (exec p sched (startState p q cap ply prc)).capture.written.drop p.delay.toNat) ∧
    (∀ got x, firstCaptureRead (exec p sched (startState p q cap ply prc)).trace = some got →
      got.head? = some x →
      (exec p sched (startState p q cap ply prc)).capture.written[p.delay.toNat]? = some x) ∧
    cap.written <+: (exec p sched (startState p q cap ply prc)).capture.written ∧
    (p.delay.toNat ≤ (exec p sched (startState p q cap ply prc)).capture.written.length →
      ∀ more : List Act, 3 ≤ List.count Act.tick more →
        inAligner (exec p more (exec p sched (startState p q cap ply prc))).pc = false ∧
        advances (exec p more (exec p sched (startState p q cap ply prc))).trace
          = [p.delay.toNat]) ∧
    (p.delay = 0 →
      sleepCount Wait.align (exec p sched (startState p q cap ply prc)).trace = 0 ∧
      (firstCaptureRead (exec p sched (startState p q cap ply prc)).trace = none →
        (exec p sched (startState p q cap ply prc)).capture.readIndex = 0)) := by
  have hinv := exec_alignInv p sched _ hD (startState_alignInv p q cap ply prc h0)
  have hpre : cap.written <+: (exec p sched (startState p q cap ply prc)).capture.written :=
    exec_written_grows p sched (startState p q cap ply prc)
  generalize exec p sched (startState p q cap ply prc) = s at hinv hpre ⊢
  obtain ⟨h1, h2, h3, h4⟩ := hinv
  have hc : ∀ got, firstCaptureRead s.trace = some got →
      got <+: s.capture.written.drop p.delay.toNat := by
    intro got hgot
    cases hin : inAligner s.pc with
    | true => rw [(h1 hin).2.2] at hgot; cases hgot
    | false => exact (h3 hin).2.2.2 got hgot
  refine ⟨h1, ?_, ?_, hc, ?_, hpre, ?_, ?_⟩
  · intro hpc
    have a1 := h1 (by rw [hpc]; rfl)
    have a2 := h2 hpc
    simp only [PaUtil_GetRingBufferReadAvailable, RingBuffer.writeIndex]
    omega
  · intro hin
    exact ⟨(h3 hin).1, (h3 hin).2.1, (h3 hin).2.2.1⟩
  · intro got x hgot hx
    exact prefix_head_getElem got _ _ x (hc got hgot) hx
  · intro hn more hmore
    have hr := exec_alignRank p more s hD ⟨h1, h2, h3, h4⟩ hn
    have h3' := alignRank_le_three s.pc
    have hz : alignRank (exec p more s).pc = 0 := by omega
    have hout := inAligner_of_alignRank _ hz
    exact ⟨hout, ((exec_alignInv p more s hD ⟨h1, h2, h3, h4⟩).2.2.1 hout).1⟩
  · intro hd
    have hd' : p.delay.toNat = 0 := by rw [hd]; rfl
    refine ⟨(h4 hd').1, fun hn => ?_⟩
    cases hin : inAligner s.pc with
    | true => exact (h1 hin).1
    | false => rw [(h3 hin).2.2.1 hn, hd']

/-- The alignment statement above in the small configuration (delay 3): the first read of
CAPTURE delivers the elements 3 and 4, after one advance by 3. -/
theorem delay_alignment_witness :
    (0 : Int) ≤ smallParams.delay ∧ (ringOf 1024 (numbered 8 2 0)).readIndex = 0 ∧
    firstCaptureRead (exec smallParams (ticks 5) smallStart).trace = some [[3, 3], [4, 4]] ∧
    advances (exec smallParams (ticks 5) smallStart).trace = [3] ∧
    (∀ got x, firstCaptureRead (exec smallParams (ticks 5) smallStart).trace = some got →
      got.head? = some x →
      (exec smallParams (ticks 5) smallStart).capture.written[3]? = some x) :=
  ⟨by decide, rfl, by decide,
    ((delay_alignment smallParams 0 (ringOf 1024 (numbered 8 2 0)) (ringOf 1024 (numbered 8 1 100))
      (ringOf 1024 []) (ticks 5) (by decide) rfl).2.2.1 (by decide)).1,
    (delay_alignment smallParams 0 (ringOf 1024 (numbered 8 2 0)) (ringOf 1024 (numbered 8 1 100))
      (ringOf 1024 []) (ticks 5) (by decide) rfl).2.2.2.2.1⟩

/-! ## Frame pairing while no stop is requested -/

theorem callsOf_append (t u : List Event) : callsOf (t ++ u) = callsOf t ++ callsOf u := by
  induction t with
  | nil => rfl
  | cons e es ih => cases e <;> simp [callsOf, ih]

theorem captureReads_append (t u : List Event) :
    captureReads (t ++ u) = captureReads t ++ captureReads u := by
  simp [captureReads, List.filterMap_append]

theorem playedReads_append (t u : List Event) :
    playedReads (t ++ u) = playedReads t ++ playedReads u := by
  simp [playedReads, List.filterMap_append]

theorem block_append (xs ys : List Elem) (start F k : Nat)
    (h : start + (k + 1) * F ≤ xs.length) :
    block (xs ++ ys) start F k = block xs start F k := by
  unfold block
  have h1 : start + k * F ≤ xs.length := by
    have : (k + 1) * F = k * F + F := by ring
    omega
  rw [List.drop_append_of_le_length h1, List.take_append_of_le_length]
  rw [List.length_drop]
  have : (k + 1) * F = k * F + F := by ring
  omega

theorem blocks_append (xs ys : List Elem) (start F n : Nat) (h : start + n * F ≤ xs.length) :
    (List.range n).map (fun k => block (xs ++ ys) start F k)
      = (List.range n).map (fun k => block xs start F k) := by
  apply List.map_congr_left
  intro k hk
  rw [List.mem_range] at hk
  apply block_append
  have : (k + 1) * F ≤ n * F := Nat.mul_le_mul_right F hk
  omega

theorem blocks_snoc {β : Type} (f : Nat → β) (l : List β)
    (h : l = (List.range l.length).map f) :
    l ++ [f l.length] = (List.range (l ++ [f l.length]).length).map f := by
  rw [List.length_append, List.length_singleton, List.range_succ, List.map_append, ← h]
  rfl

theorem read_full (rb : RingBuffer) (F : Nat) (h : rb.readIndex + F ≤ rb.written.length) :
    PaUtil_ReadRingBuffer rb F
      = ({ rb with readIndex := rb.readIndex + F }, (rb.written.drop rb.readIndex).take F) ∧
    ((rb.written.drop rb.readIndex).take F).length = F := by
  have hk : min F (PaUtil_GetRingBufferReadAvailable rb) = F := by
    simp only [PaUtil_GetRingBufferReadAvailable, RingBuffer.writeIndex]
    omega
  constructor
  · simp only [PaUtil_ReadRingBuffer, hk]
  · rw [List.length_take, List.length_drop]
    omega

theorem copyInto_full (scratch got : List Elem) (h : got.length = scratch.length) :
    copyInto scratch got = got := by
  unfold copyInto
  rw [h, List.drop_length, List.append_nil]

theorem not_availLt (rb : RingBuffer) (d : Int) (h : availLt rb d = false) :
    rb.readIndex ≤ rb.written.length → rb.readIndex + d.toNat ≤ rb.written.length := by
  intro hb
  unfold availLt at h
  rw [decide_eq_false_iff_not] at h
  simp only [PaUtil_GetRingBufferReadAvailable, RingBuffer.writeIndex] at h
  omega

theorem pairInv_of_same (D F : Nat) (s t : State) (h : PairInv D F s)
    (hq : t.g_is_quit = s.g_is_quit) (hn : t.near = s.near) (hf : t.far = s.far)
    (hc : t.capture = s.capture) (hp : t.played = s.played)
    (e1 : callsOf t.trace = callsOf s.trace)
    (e2 : captureReads t.trace = captureReads s.trace)
    (e3 : playedReads t.trace = playedReads s.trace)
    (e4 : advances t.trace = advances s.trace)
    (e5 : workCount Work.publish t.trace = workCount Work.publish s.trace)
    (p1 : inAligner t.pc = inAligner s.pc)
    (p2 : readCaptureAhead t.pc = readCaptureAhead s.pc)
    (p3 : readPlayedAhead t.pc = readPlayedAhead s.pc)
    (p4 : publishBehind t.pc = publishBehind s.pc)
    (p5 : t.pc = Pc.alignAdvance → D ≤ s.capture.written.length)
    (p6 : t.pc = Pc.capRead → s.capture.readIndex + F ≤ s.capture.written.length)
    (p7 : t.pc = Pc.plyRead → s.played.readIndex + F ≤ s.played.written.length)
    (p8 : t.pc ≠ Pc.finish ∧ t.pc ≠ Pc.exited) : PairInv D F t where
  quit := by rw [hq]; exact h.quit
  nearLen := by rw [hn]; exact h.nearLen
  farLen := by rw [hf]; exact h.farLen
  calls := by rw [e1, hc, hp]; exact h.calls
  capReads := by rw [e2, hc]; exact h.capReads
  plyReads := by rw [e3, hp]; exact h.plyReads
  capIndex := by rw [e2, e4, hc]; exact h.capIndex
  plyIndex := by rw [e3, hp]; exact h.plyIndex
  capBound := by rw [hc]; exact h.capBound
  plyBound := by rw [hp]; exact h.plyBound
  nearEq := by rw [e2, hc, hn]; exact h.nearEq
  farEq := by rw [e3, hp, hf]; exact h.farEq
  adv := by rw [e4, p1]; exact h.adv
  alignCalls := by rw [e1, p1]; exact h.alignCalls
  capAhead := by rw [e1, e2, p2]; exact h.capAhead
  plyAhead := by rw [e1, e3, p3]; exact h.plyAhead
  pub := by rw [e1, e5, p4]; exact h.pub
  alignReady := by rw [hc]; exact p5
  capReady := by rw [hc]; exact p6
  plyReady := by rw [hp]; exact p7
  inLoop := p8

theorem trace_append_quiet (t : List Event) (e : Event)
    (h1 : callsOf [e] = []) (h2 : e.captureGot = none) (h3 : e.playedGot = none)
    (h4 : e.advanceCount = none) (h5 : Event.isWork Work.publish e = false) :
    callsOf (t ++ [e]) = callsOf t ∧ captureReads (t ++ [e]) = captureReads t ∧
    playedReads (t ++ [e]) = playedReads t ∧ advances (t ++ [e]) = advances t ∧
    workCount Work.publish (t ++ [e]) = workCount Work.publish t := by
  refine ⟨?_, ?_, ?_, ?_, ?_⟩
  · rw [callsOf_append, h1, List.append_nil]
  · simp [captureReads, List.filterMap_append, h2]
  · simp [playedReads, List.filterMap_append, h3]
  · simp [advances, List.filterMap_append, h4]
  · rw [workCount_append]; simp [workCount, h5]

theorem step_pairInv (p : Params) (s : State)
    (h : PairInv p.delay.toNat p.frame_size.toNat s) :
    PairInv p.delay.toNat p.frame_size.toNat (step p s) := by
  obtain ⟨pc, q, cap, ply, prc, near, far, out, tr⟩ := s
  have hq : q = 0 := h.quit
  subst hq
  cases pc
  case alignTest =>
    have hr : cap.readIndex = 0 := by
      have h1 := h.capIndex
      have h2 := h.adv
      have h3 := h.capAhead
      have h4 := h.alignCalls rfl
      simp only [inAligner, if_true, readCaptureAhead] at h1 h2 h3 h4
      rw [h2, h3, h4] at h1
      simpa using h1
    cases hav : availLt cap p.delay with
    | true =>
      refine pairInv_of_same _ _ _ _ h ?_ ?_ ?_ ?_ ?_ ?_ ?_ ?_ ?_ ?_ ?_ ?_ ?_ ?_ ?_ ?_ ?_ ?_ <;>
        simp [step, hav, inAligner, readCaptureAhead, readPlayedAhead, publishBehind]
    | false =>
      have hb := not_availLt cap p.delay hav h.capBound
      rw [hr] at hb
      refine pairInv_of_same _ _ _ _ h ?_ ?_ ?_ ?_ ?_ ?_ ?_ ?_ ?_ ?_ ?_ ?_ ?_ ?_ ?_ ?_ ?_ ?_ <;>
        simp [step, hav, inAligner, readCaptureAhead, readPlayedAhead, publishBehind]
      omega
  case alignSleep =>
    have tq := trace_append_quiet tr (Event.usleep Wait.align p.wait_us) rfl rfl rfl rfl rfl
    refine pairInv_of_same _ _ _ _ h ?_ ?_ ?_ ?_ ?_ ?_ ?_ ?_ ?_ ?_ ?_ ?_ ?_ ?_ ?_ ?_ ?_ ?_ <;>
      simp [step, tq, inAligner, readCaptureAhead, readPlayedAhead, publishBehind]
  case loopTest =>
    refine pairInv_of_same _ _ _ _ h ?_ ?_ ?_ ?_ ?_ ?_ ?_ ?_ ?_ ?_ ?_ ?_ ?_ ?_ ?_ ?_ ?_ ?_ <;>
      simp [step, inAligner, readCaptureAhead, readPlayedAhead, publishBehind]
  case capTest =>
    cases hav : availLt cap p.frame_size with
    | true =>
      refine pairInv_of_same _ _ _ _ h ?_ ?_ ?_ ?_ ?_ ?_ ?_ ?_ ?_ ?_ ?_ ?_ ?_ ?_ ?_ ?_ ?_ ?_ <;>
        simp [step, hav, inAligner, readCaptureAhead, readPlayedAhead, publishBehind]
    | false =>
      have hb := not_availLt cap p.frame_size hav h.capBound
      refine pairInv_of_same _ _ _ _ h ?_ ?_ ?_ ?_ ?_ ?_ ?_ ?_ ?_ ?_ ?_ ?_ ?_ ?_ ?_ ?_ ?_ ?_ <;>
        simp [step, hav, inAligner, readCaptureAhead, readPlayedAhead, publishBehind]
      exact hb
  case capSleep =>
    have tq := trace_append_quiet tr (Event.usleep Wait.capture p.wait_us) rfl rfl rfl rfl rfl
    refine pairInv_of_same _ _ _ _ h ?_ ?_ ?_ ?_ ?_ ?_ ?_ ?_ ?_ ?_ ?_ ?_ ?_ ?_ ?_ ?_ ?_ ?_ <;>
      simp [step, tq, inAligner, readCaptureAhead, readPlayedAhead, publishBehind]
  case plyTest =>
    cases hav : availLt ply p.frame_size with
    | true =>
      refine pairInv_of_same _ _ _ _ h ?_ ?_ ?_ ?_ ?_ ?_ ?_ ?_ ?_ ?_ ?_ ?_ ?_ ?_ ?_ ?_ ?_ ?_ <;>
        simp [step, hav, inAligner, readCaptureAhead, readPlayedAhead, publishBehind]
    | false =>
      have hb := not_availLt ply p.frame_size hav h.plyBound
      refine pairInv_of_same _ _ _ _ h ?_ ?_ ?_ ?_ ?_ ?_ ?_ ?_ ?_ ?_ ?_ ?_ ?_ ?_ ?_ ?_ ?_ ?_ <;>
        simp [step, hav, inAligner, readCaptureAhead, readPlayedAhead, publishBehind]
      exact hb
  case plySleep =>
    have tq := trace_append_quiet tr (Event.usleep Wait.played p.wait_us) rfl rfl rfl rfl rfl
    refine pairInv_of_same _ _ _ _ h ?_ ?_ ?_ ?_ ?_ ?_ ?_ ?_ ?_ ?_ ?_ ?_ ?_ ?_ ?_ ?_ ?_ ?_ <;>
      simp [step, tq, inAligner, readCaptureAhead, readPlayedAhead, publishBehind]
  case save =>
    have tq := trace_append_quiet tr (Event.fwrite near far out) rfl rfl rfl rfl rfl
    cases hfp : p.fp_far <;>
    refine pairInv_of_same _ _ _ _ h ?_ ?_ ?_ ?_ ?_ ?_ ?_ ?_ ?_ ?_ ?_ ?_ ?_ ?_ ?_ ?_ ?_ ?_ <;>
      simp [step, hfp, tq, inAligner, readCaptureAhead, readPlayedAhead, publishBehind]
  case finish => exact absurd rfl h.inLoop.1
  case exited => exact absurd rfl h.inLoop.2
  case alignAdvance =>
    have c1 := h.calls
    have c2 := h.capReads
    have c3 := h.plyReads
    have c4 := h.capIndex
    have c5 := h.adv
    have c6 := h.alignCalls rfl
    have c7 := h.capAhead
    have c8 := h.alignReady rfl
    have c9 := h.pub
    have c10 := h.plyAhead
    simp only [inAligner, if_true, readCaptureAhead, readPlayedAhead, publishBehind] at c1 c2 c3 c4 c5 c6 c7 c8 c9 c10
    have t1 : callsOf (tr ++ [Event.advance p.delay.toNat]) = callsOf tr := by
      rw [callsOf_append]; simp [callsOf]
    have t2 : captureReads (tr ++ [Event.advance p.delay.toNat]) = captureReads tr := by
      rw [captureReads_append]; simp [captureReads, Event.captureGot]
    have t3 : playedReads (tr ++ [Event.advance p.delay.toNat]) = playedReads tr := by
      rw [playedReads_append]; simp [playedReads, Event.playedGot]
    have t4 : advances (tr ++ [Event.advance p.delay.toNat]) = [p.delay.toNat] := by
      rw [advances_append, c5]; rfl
    have t5 : workCount Work.publish (tr ++ [Event.advance p.delay.toNat])
        = workCount Work.publish tr := by
      rw [workCount_append]; simp [workCount, Event.isWork]
    simp only [step]
    exact
      { quit := rfl
        nearLen := h.nearLen
        farLen := h.farLen
        calls := by simp only [t1, PaUtil_AdvanceRingBufferReadIndex]; exact c1
        capReads := by simp only [t2, PaUtil_AdvanceRingBufferReadIndex]; exact c2
        plyReads := by simp only [t3]; exact c3
        capIndex := by
          simp only [t2, t4, PaUtil_AdvanceRingBufferReadIndex, List.sum_cons, List.sum_nil]
          rw [c4, c5]; simp only [List.sum_nil]; omega
        plyIndex := by simp only [t3]; exact h.plyIndex
        capBound := by
          simp only [PaUtil_AdvanceRingBufferReadIndex]
          rw [c4, c5, c7, c6]; simp only [List.sum_nil]; omega
        plyBound := h.plyBound
        nearEq := by simp only [t2, PaUtil_AdvanceRingBufferReadIndex]; exact h.nearEq
        farEq := by simp only [t3]; exact h.farEq
        adv := by simp only [t4, inAligner]; rfl
        alignCalls := by intro hh; cases hh
        capAhead := by simp only [t1, t2, readCaptureAhead]; exact c7
        plyAhead := by simp only [t1, t3, readPlayedAhead]; exact c10
        pub := by simp only [t1, t5, publishBehind]; exact c9
        alignReady := by intro hh; cases hh
        capReady := by intro hh; cases hh
        plyReady := by intro hh; cases hh
        inLoop := ⟨(fun hh => by cases hh), (fun hh => by cases hh)⟩ }
  case capRead =>
    have c1 := h.calls
    have c2 := h.capReads
    have c3 := h.plyReads
    have c4 := h.capIndex
    have c5 := h.adv
    have c7 := h.capAhead
    have c8 := h.capReady rfl
    have c9 := h.pub
    have c10 := h.plyAhead
    have c11 := h.nearLen
    simp only [inAligner, Bool.false_eq_true, if_false, readCaptureAhead, readPlayedAhead,
      publishBehind] at c1 c2 c3 c4 c5 c7 c8 c9 c10 c11
    obtain ⟨r1, r2⟩ := read_full cap p.frame_size.toNat c8
    have hgot : (cap.written.drop cap.readIndex).take p.frame_size.toNat
        = block cap.written p.delay.toNat p.frame_size.toNat (captureReads tr).length := by
      rw [c4, c5]; simp only [List.sum_cons, List.sum_nil, block, Nat.add_zero]
    have t1 : ∀ g, callsOf (tr ++ [Event.readCapture g]) = callsOf tr := by
      intro g; rw [callsOf_append]; simp [callsOf]
    have t2 : ∀ g, captureReads (tr ++ [Event.readCapture g]) = captureReads tr ++ [g] := by
      intro g; rw [captureReads_append]; simp [captureReads, Event.captureGot]
    have t3 : ∀ g, playedReads (tr ++ [Event.readCapture g]) = playedReads tr := by
      intro g; rw [playedReads_append]; simp [playedReads, Event.playedGot]
    have t4 : ∀ g, advances (tr ++ [Event.readCapture g]) = advances tr := by
      intro g; rw [advances_append]; simp [advances, Event.advanceCount]
    have t5 : ∀ g, workCount Work.publish (tr ++ [Event.readCapture g])
        = workCount Work.publish tr := by
      intro g; rw [workCount_append]; simp [workCount, Event.isWork]
    have hcopy : copyInto near ((cap.written.drop cap.readIndex).take p.frame_size.toNat)
        = (cap.written.drop cap.readIndex).take p.frame_size.toNat :=
      copyInto_full _ _ (by rw [r2, c11])
    simp only [step, r1, hcopy]
    exact
      { quit := rfl
        nearLen := r2
        farLen := h.farLen
        calls := by simp only [t1]; exact c1
        capReads := by
          simp only [t2]
          rw [hgot]
          exact blocks_snoc (fun k => block cap.written p.delay.toNat p.frame_size.toNat k) _ c2
        plyReads := by simp only [t3]; exact c3
        capIndex := by
          simp only [t2, t4, List.length_append, List.length_singleton]
          rw [c4, c5, Nat.add_mul]; simp only [List.sum_cons, List.sum_nil]; omega
        plyIndex := by simp only [t3]; exact h.plyIndex
        capBound := c8
        plyBound := h.plyBound
        nearEq := by
          intro k hk
          simp only [t2, List.length_append, List.length_singleton] at hk
          have : k = (captureReads tr).length := by omega
          subst this
          exact hgot
        farEq := by simp only [t3]; exact h.farEq
        adv := by simp only [t4, inAligner]; rw [c5]; rfl
        alignCalls := by intro hh; cases hh
        capAhead := by
          simp only [t1, t2, List.length_append, List.length_singleton, readCaptureAhead]; omega
        plyAhead := by simp only [t1, t3, readPlayedAhead]; exact c10
        pub := by simp only [t1, t5, publishBehind]; exact c9
        alignReady := by intro hh; cases hh
        capReady := by intro hh; cases hh
        plyReady := by intro hh; cases hh
        inLoop := ⟨(fun hh => by cases hh), (fun hh => by cases hh)⟩ }
  case plyRead =>
    have c1 := h.calls
    have c2 := h.capReads
    have c3 := h.plyReads
    have c4 := h.plyIndex
    have c5 := h.adv
    have c7 := h.capAhead
    have c8 := h.plyReady rfl
    have c9 := h.pub
    have c10 := h.plyAhead
    have c11 := h.farLen
    simp only [inAligner, Bool.false_eq_true, if_false, readCaptureAhead, readPlayedAhead,
      publishBehind] at c1 c2 c3 c4 c5 c7 c8 c9 c10 c11
    obtain ⟨r1, r2⟩ := read_full ply p.frame_size.toNat c8
    have hgot : (ply.written.drop ply.readIndex).take p.frame_size.toNat
        = block ply.written 0 p.frame_size.toNat (playedReads tr).length := by
      rw [c4]; simp only [block, Nat.zero_add]
    have t1 : ∀ g, callsOf (tr ++ [Event.readPlayed g]) = callsOf tr := by
      intro g; rw [callsOf_append]; simp [callsOf]
    have t2 : ∀ g, captureReads (tr ++ [Event.readPlayed g]) = captureReads tr := by
      intro g; rw [captureReads_append]; simp [captureReads, Event.captureGot]
    have t3 : ∀ g, playedReads (tr ++ [Event.readPlayed g]) = playedReads tr ++ [g] := by
      intro g; rw [playedReads_append]; simp [playedReads, Event.playedGot]
    have t4 : ∀ g, advances (tr ++ [Event.readPlayed g]) = advances tr := by
      intro g; rw [advances_append]; simp [advances, Event.advanceCount]
    have t5 : ∀ g, workCount Work.publish (tr ++ [Event.readPlayed g])
        = workCount Work.publish tr := by
      intro g; rw [workCount_append]; simp [workCount, Event.isWork]
    have hcopy : copyInto far ((ply.written.drop ply.readIndex).take p.frame_size.toNat)
        = (ply.written.drop ply.readIndex).take p.frame_size.toNat :=
      copyInto_full _ _ (by rw [r2, c11])
    simp only [step, r1, hcopy]
    exact
      { quit := rfl
        nearLen := h.nearLen
        farLen := r2
        calls := by simp only [t1]; exact c1
        capReads := by simp only [t2]; exact c2
        plyReads := by
          simp only [t3]
          rw [hgot]
          exact blocks_snoc (fun k => block ply.written 0 p.frame_size.toNat k) _ c3
        capIndex := by simp only [t2, t4]; exact h.capIndex
        plyIndex := by
          simp only [t3, List.length_append, List.length_singleton]
          rw [c4, Nat.add_mul]; omega
        capBound := h.capBound
        plyBound := c8
        nearEq := by simp only [t2]; exact h.nearEq
        farEq := by
          intro k hk
          simp only [t3, List.length_append, List.length_singleton] at hk
          have : k = (playedReads tr).length := by omega
          subst this
          exact hgot
        adv := by simp only [t4, inAligner]; rw [c5]; rfl
        alignCalls := by intro hh; cases hh
        capAhead := by simp only [t1, t2, readCaptureAhead]; exact c7
        plyAhead := by
          simp only [t1, t3, List.length_append, List.length_singleton, readPlayedAhead]; omega
        pub := by simp only [t1, t5, publishBehind]; exact c9
        alignReady := by intro hh; cases hh
        capReady := by intro hh; cases hh
        plyReady := by intro hh; cases hh
        inLoop := ⟨(fun hh => by cases hh), (fun hh => by cases hh)⟩ }
  case cancel =>
    have c1 := h.calls
    have c2 := h.capReads
    have c3 := h.plyReads
    have c5 := h.adv
    have c7 := h.capAhead
    have c9 := h.pub
    have c10 := h.plyAhead
    simp only [inAligner, Bool.false_eq_true, if_false, readCaptureAhead, readPlayedAhead,
      publishBehind] at c1 c2 c3 c5 c7 c9 c10
    have hnear := h.nearEq _ c7
    have hfar := h.farEq _ c10
    simp only at hnear hfar
    have t1 : ∀ o, callsOf (tr ++ [Event.cancel near far o]) = callsOf tr ++ [(near, far)] := by
      intro o; rw [callsOf_append]; simp [callsOf]
    have t2 : ∀ o, captureReads (tr ++ [Event.cancel near far o]) = captureReads tr := by
      intro o; rw [captureReads_append]; simp [captureReads, Event.captureGot]
    have t3 : ∀ o, playedReads (tr ++ [Event.cancel near far o]) = playedReads tr := by
      intro o; rw [playedReads_append]; simp [playedReads, Event.playedGot]
    have t4 : ∀ o, advances (tr ++ [Event.cancel near far o]) = advances tr := by
      intro o; rw [advances_append]; simp [advances, Event.advanceCount]
    have t5 : ∀ o, workCount Work.publish (tr ++ [Event.cancel near far o])
        = workCount Work.publish tr := by
      intro o; rw [workCount_append]; simp [workCount, Event.isWork]
    simp only [step]
    exact
      { quit := rfl
        nearLen := h.nearLen
        farLen := h.farLen
        calls := by
          simp only [t1]
          have e : (near, far) = (fun k => (block cap.written p.delay.toNat p.frame_size.toNat k,
              block ply.written 0 p.frame_size.toNat k)) (callsOf tr).length := by
            simp only [← hnear, ← hfar]
          rw [e]
          exact blocks_snoc _ _ c1
        capReads := by simp only [t2]; exact c2
        plyReads := by simp only [t3]; exact c3
        capIndex := by simp only [t2, t4]; exact h.capIndex
        plyIndex := by simp only [t3]; exact h.plyIndex
        capBound := h.capBound
        plyBound := h.plyBound
        nearEq := by simp only [t2]; exact h.nearEq
        farEq := by simp only [t3]; exact h.farEq
        adv := by simp only [t4, inAligner]; rw [c5]; rfl
        alignCalls := by intro hh; cases hh
        capAhead := by
          simp only [t1, t2, List.length_append, List.length_singleton, readCaptureAhead]; omega
        plyAhead := by
          simp only [t1, t3, List.length_append, List.length_singleton, readPlayedAhead]; omega
        pub := by
          simp only [t1, t5, List.length_append, List.length_singleton, publishBehind]; omega
        alignReady := by intro hh; cases hh
        capReady := by intro hh; cases hh
        plyReady := by intro hh; cases hh
        inLoop := ⟨(fun hh => by cases hh), (fun hh => by cases hh)⟩ }
  case write =>
    have c1 := h.calls
    have c2 := h.capReads
    have c3 := h.plyReads
    have c5 := h.adv
    have c7 := h.capAhead
    have c9 := h.pub
    have c10 := h.plyAhead
    simp only [inAligner, Bool.false_eq_true, if_false, readCaptureAhead, readPlayedAhead,
      publishBehind] at c1 c2 c3 c5 c7 c9 c10
    have t1 : ∀ o k, callsOf (tr ++ [Event.writeProcessed o k]) = callsOf tr := by
      intro o k; rw [callsOf_append]; simp [callsOf]
    have t2 : ∀ o k, captureReads (tr ++ [Event.writeProcessed o k]) = captureReads tr := by
      intro o k; rw [captureReads_append]; simp [captureReads, Event.captureGot]
    have t3 : ∀ o k, playedReads (tr ++ [Event.writeProcessed o k]) = playedReads tr := by
      intro o k; rw [playedReads_append]; simp [playedReads, Event.playedGot]
    have t4 : ∀ o k, advances (tr ++ [Event.writeProcessed o k]) = advances tr := by
      intro o k; rw [advances_append]; simp [advances, Event.advanceCount]
    have t5 : ∀ o k, workCount Work.publish (tr ++ [Event.writeProcessed o k])
        = workCount Work.publish tr + 1 := by
      intro o k; rw [workCount_append]; simp [workCount, Event.isWork]
    simp only [step]
    exact
      { quit := rfl
        nearLen := h.nearLen
        farLen := h.farLen
        calls := by simp only [t1]; exact c1
        capReads := by simp only [t2]; exact c2
        plyReads := by simp only [t3]; exact c3
        capIndex := by simp only [t2, t4]; exact h.capIndex
        plyIndex := by simp only [t3]; exact h.plyIndex
        capBound := h.capBound
        plyBound := h.plyBound
        nearEq := by simp only [t2]; exact h.nearEq
        farEq := by simp only [t3]; exact h.farEq
        adv := by simp only [t4, inAligner]; rw [c5]; rfl
        alignCalls := by intro hh; cases hh
        capAhead := by simp only [t1, t2, readCaptureAhead]; exact c7
        plyAhead := by simp only [t1, t3, readPlayedAhead]; exact c10
        pub := by simp only [t1, t5, publishBehind]; omega
        alignReady := by intro hh; cases hh
        capReady := by intro hh; cases hh
        plyReady := by intro hh; cases hh
        inLoop := ⟨(fun hh => by cases hh), (fun hh => by cases hh)⟩ }

theorem pairInv_capture_bound (D F : Nat) (s : State) (h : PairInv D F s) :
    D + (captureReads s.trace).length * F ≤ s.capture.written.length ∨
      (captureReads s.trace).length = 0 := by
  cases hin : inAligner s.pc with
  | true =>
    right
    have h1 := h.alignCalls hin
    have h2 := h.capAhead
    have h3 : readCaptureAhead s.pc = 0 := by
      revert hin; cases s.pc <;> simp [inAligner, readCaptureAhead]
    omega
  | false =>
    left
    have h1 := h.capIndex
    have h2 := h.adv
    have h3 := h.capBound
    rw [hin] at h2
    simp only [Bool.false_eq_true, if_false] at h2
    rw [h2] at h1
    simp only [List.sum_cons, List.sum_nil] at h1
    omega

theorem hwCapture_pairInv (D F : Nat) (s : State) (ys : List Elem) (h : PairInv D F s) :
    PairInv D F { s with capture := { s.capture with written := s.capture.written ++ ys } } := by
  have hb := pairInv_capture_bound D F s h
  have hcalls : (callsOf s.trace).length ≤ (captureReads s.trace).length := by
    have := h.capAhead; omega
  have stable : ∀ k, k < (captureReads s.trace).length →
      block (s.capture.written ++ ys) D F k = block s.capture.written D F k := by
    intro k hk
    apply block_append
    rcases hb with hb | hb
    · have : (k + 1) * F ≤ (captureReads s.trace).length * F := Nat.mul_le_mul_right F hk
      omega
    · omega
  exact
    { quit := h.quit
      nearLen := h.nearLen
      farLen := h.farLen
      calls := by
        simp only
        rw [h.calls, List.length_map, List.length_range]
        apply List.map_congr_left
        intro k hk
        rw [List.mem_range] at hk
        rw [stable k (by omega)]
      capReads := by
        simp only
        rw [h.capReads, List.length_map, List.length_range]
        apply List.map_congr_left
        intro k hk
        rw [List.mem_range] at hk
        rw [stable k hk]
      plyReads := h.plyReads
      capIndex := h.capIndex
      plyIndex := h.plyIndex
      capBound := by
        have := h.capBound
        simp only [List.length_append]; omega
      plyBound := h.plyBound
      nearEq := by
        intro k hk
        simp only at hk ⊢
        rw [stable k (by omega)]
        exact h.nearEq k hk
      farEq := h.farEq
      adv := h.adv
      alignCalls := h.alignCalls
      capAhead := h.capAhead
      plyAhead := h.plyAhead
      pub := h.pub
      alignReady := by
        intro hh
        have := h.alignReady hh
        simp only [List.length_append]; omega
      capReady := by
        intro hh
        have := h.capReady hh
        simp only [List.length_append]; omega
      plyReady := h.plyReady
      inLoop := h.inLoop }

theorem hwPlayed_pairInv (D F : Nat) (s : State) (ys : List Elem) (h : PairInv D F s) :
    PairInv D F { s with played := { s.played with written := s.played.written ++ ys } } := by
  have hb : (playedReads s.trace).length * F ≤ s.played.written.length := by
    have h1 := h.plyIndex
    have h2 := h.plyBound
    omega
  have hcalls : (callsOf s.trace).length ≤ (playedReads s.trace).length := by
    have := h.plyAhead; omega
  have stable : ∀ k, k < (playedReads s.trace).length →
      block (s.played.written ++ ys) 0 F k = block s.played.written 0 F k := by
    intro k hk
    apply block_append
    have : (k + 1) * F ≤ (playedReads s.trace).length * F := Nat.mul_le_mul_right F hk
    omega
  exact
    { quit := h.quit
      nearLen := h.nearLen
      farLen := h.farLen
      calls := by
        simp only
        rw [h.calls, List.length_map, List.length_range]
        apply List.map_congr_left
        intro k hk
        rw [List.mem_range] at hk
        rw [stable k (by omega)]
      capReads := h.capReads
      plyReads := by
        simp only
        rw [h.plyReads, List.length_map, List.length_range]
        apply List.map_congr_left
        intro k hk
        rw [List.mem_range] at hk
        rw [stable k hk]
      capIndex := h.capIndex
      plyIndex := h.plyIndex
      capBound := h.capBound
      plyBound := by
        have := h.plyBound
        simp only [List.length_append]; omega
      nearEq := h.nearEq
      farEq := by
        intro k hk
        simp only at hk ⊢
        rw [stable k (by omega)]
        exact h.farEq k hk
      adv := h.adv
      alignCalls := h.alignCalls
      capAhead := h.capAhead
      plyAhead := h.plyAhead
      pub := h.pub
      alignReady := h.alignReady
      capReady := h.capReady
      plyReady := by
        intro hh
        have := h.plyReady hh
        simp only [List.length_append]; omega
      inLoop := h.inLoop }

theorem act_pairInv (p : Params) (s : State) (a : Act) (ha : a.isSigint = false)
    (h : PairInv p.delay.toNat p.frame_size.toNat s) :
    PairInv p.delay.toNat p.frame_size.toNat (act p s a) := by
  cases a with
  | tick => exact step_pairInv p s h
  | sigint n => cases ha
  | hwCapture xs => exact hwCapture_pairInv _ _ s _ h
  | hwPlayed xs => exact hwPlayed_pairInv _ _ s _ h
  | drain n =>
    exact pairInv_of_same _ _ s _ h rfl rfl rfl rfl rfl rfl rfl rfl rfl rfl rfl rfl rfl rfl
      h.alignReady h.capReady h.plyReady h.inLoop

theorem exec_pairInv (p : Params) (sched : List Act) (s : State)
    (ha : ∀ a ∈ sched, a.isSigint = false)
    (h : PairInv p.delay.toNat p.frame_size.toNat s) :
    PairInv p.delay.toNat p.frame_size.toNat (exec p sched s) := by
  induction sched generalizing s with
  | nil => exact h
  | cons a rest ih =>
    rw [exec_cons]
    exact ih _ (fun b hb => ha b (List.mem_cons_of_mem _ hb))
      (act_pairInv p s a (ha a (List.mem_cons_self _ _)) h)

theorem startState_pairInv (p : Params) (cap ply prc : RingBuffer)
    (hc : cap.readIndex = 0) (hp : ply.readIndex = 0) :
    PairInv p.delay.toNat p.frame_size.toNat (startState p 0 cap ply prc) where
  quit := rfl
  nearLen := by simp [startState]
  farLen := by simp [startState]
  calls := rfl
  capReads := rfl
  plyReads := rfl
  capIndex := by simp [startState, hc, advances, captureReads]
  plyIndex := by simp [startState, hp, playedReads]
  capBound := by simp [startState, hc]
  plyBound := by simp [startState, hp]
  nearEq := by intro k hk; simp [startState, captureReads] at hk
  farEq := by intro k hk; simp [startState, playedReads] at hk
  adv := rfl
  alignCalls := fun _ => rfl
  capAhead := rfl
  plyAhead := rfl
  pub := rfl
  alignReady := by intro hh; cases hh
  capReady := by intro hh; cases hh
  plyReady := by intro hh; cases hh
  inLoop := ⟨(fun hh => by cases hh), (fun hh => by cases hh)⟩

theorem block_length (xs : List Elem) (start F k : Nat) (h : start + (k + 1) * F ≤ xs.length) :
    (block xs start F k).length = F := by
  unfold block
  rw [List.length_take, List.length_drop]
  have : (k + 1) * F = k * F + F := by ring
  omega

/-- Frame pairing while no stop is requested: from line 195 with `g_is_quit = 0` and both
input rings read from index 0, along every schedule without a signal, the `k`-th
transform call (from 0) received as near-end frame the `k`-th block of `frame_size`
elements of CAPTURE after the first `delay` elements and as far-end frame the `k`-th
block of `frame_size` elements of PLAYED, both of full length; the reads delivered these
blocks in order; and reads, call and write follow each other within an iteration. -/
theorem frame_pairing_without_stop (p : Params) (cap ply prc : RingBuffer) (sched : List Act)
    (hc : cap.readIndex = 0) (hp : ply.readIndex = 0)
    (ha : ∀ a ∈ sched, a.isSigint = false) :
    (∀ k near far, (callsOf (exec p sched (startState p 0 cap ply prc)).trace)[k]? = some (near, far) →
      near = block (exec p sched (startState p 0 cap ply prc)).capture.written
        p.delay.toNat p.frame_size.toNat k ∧
      far = block (exec p sched (startState p 0 cap ply prc)).played.written
        0 p.frame_size.toNat k ∧
      near.length = p.frame_size.toNat ∧ far.length = p.frame_size.toNat ∧
      (captureReads (exec p sched (startState p 0 cap ply prc)).trace)[k]? = some near ∧
      (playedReads (exec p sched (startState p 0 cap ply prc)).trace)[k]? = some far) ∧
    (captureReads (exec p sched (startState p 0 cap ply prc)).trace).length
      = (callsOf (exec p sched (startState p 0 cap ply prc)).trace).length
        + readCaptureAhead (exec p sched (startState p 0 cap ply prc)).pc ∧
    (playedReads (exec p sched (startState p 0 cap ply prc)).trace).length
      = (callsOf (exec p sched (startState p 0 cap ply prc)).trace).length
        + readPlayedAhead (exec p sched (startState p 0 cap ply prc)).pc ∧
    workCount Work.publish (exec p sched (startState p 0 cap ply prc)).trace
        + publishBehind (exec p sched (startState p 0 cap ply prc)).pc
      = (callsOf (exec p sched (startState p 0 cap ply prc)).trace).length := by
  have h := exec_pairInv p sched _ ha (startState_pairInv p cap ply prc hc hp)
  generalize exec p sched (startState p 0 cap ply prc) = s at h ⊢
  refine ⟨?_, h.capAhead, h.plyAhead, h.pub⟩
  intro k near far hk
  have hlt : k < (callsOf s.trace).length := by
    by_contra hcon
    rw [List.getElem?_eq_none (by omega)] at hk
    cases hk
  have hcalls := h.calls
  rw [hcalls, List.getElem?_map, List.getElem?_range hlt] at hk
  simp only [Option.map_some', Option.some.injEq, Prod.mk.injEq] at hk
  obtain ⟨hn, hf⟩ := hk
  have h1 := h.capAhead
  have h2 := h.plyAhead
  have hkc : k < (captureReads s.trace).length := by omega
  have hkp : k < (playedReads s.trace).length := by omega
  have hbc := pairInv_capture_bound _ _ s h
  have hbp : (playedReads s.trace).length * p.frame_size.toNat ≤ s.played.written.length := by
    have e1 := h.plyIndex
    have e2 := h.plyBound
    omega
  have m1 : (k + 1) * p.frame_size.toNat
      ≤ (captureReads s.trace).length * p.frame_size.toNat := Nat.mul_le_mul_right _ hkc
  have m2 : (k + 1) * p.frame_size.toNat
      ≤ (playedReads s.trace).length * p.frame_size.toNat := Nat.mul_le_mul_right _ hkp
  refine ⟨hn.symm, hf.symm, ?_, ?_, ?_, ?_⟩
  · rw [← hn]
    apply block_length
    rcases hbc with hbc | hbc <;> omega
  · rw [← hf]
    apply block_length
    omega
  · rw [h.capReads, List.getElem?_map, List.getElem?_range hkc, ← hn]
    rfl
  · rw [h.plyReads, List.getElem?_map, List.getElem?_range hkp, ← hf]
    rfl

/-- The number of frames when the input is exhausted: from line 195 with `g_is_quit = 0`,
along every schedule without a signal, whenever `main` is in the wait on CAPTURE (lines
204–206) with fewer than `frame_size` elements available, it has called the transform
and written to PROCESSED exactly `floor((n - delay) / frame_size)` times, `n` being the
number of elements accepted by CAPTURE so far. -/
theorem frames_at_stall (p : Params) (cap ply prc : RingBuffer) (sched : List Act)
    (hc : cap.readIndex = 0) (hp : ply.readIndex = 0)
    (ha : ∀ a ∈ sched, a.isSigint = false)
    (hpc : (exec p sched (startState p 0 cap ply prc)).pc = Pc.capTest ∨
      (exec p sched (startState p 0 cap ply prc)).pc = Pc.capSleep)
    (hav : PaUtil_GetRingBufferReadAvailable (exec p sched (startState p 0 cap ply prc)).capture
      < p.frame_size.toNat) :
    (callsOf (exec p sched (startState p 0 cap ply prc)).trace).length
      = ((exec p sched (startState p 0 cap ply prc)).capture.written.length - p.delay.toNat)
        / p.frame_size.toNat ∧
    workCount Work.publish (exec p sched (startState p 0 cap ply prc)).trace
      = ((exec p sched (startState p 0 cap ply prc)).capture.written.length - p.delay.toNat)
        / p.frame_size.toNat ∧
    p.delay.toNat ≤ (exec p sched (startState p 0 cap ply prc)).capture.written.length := by
  have h := exec_pairInv p sched _ ha (startState_pairInv p cap ply prc hc hp)
  generalize exec p sched (startState p 0 cap ply prc) = s at h hpc hav ⊢
  have hin : inAligner s.pc = false := by rcases hpc with e | e <;> rw [e] <;> rfl
  have hah : readCaptureAhead s.pc = 0 := by rcases hpc with e | e <;> rw [e] <;> rfl
  have hpb : publishBehind s.pc = 0 := by rcases hpc with e | e <;> rw [e] <;> rfl
  have h1 := h.capIndex
  have h2 := h.adv
  have h3 := h.capBound
  have h4 := h.capAhead
  have h5 := h.pub
  rw [hin] at h2
  simp only [Bool.false_eq_true, if_false] at h2
  rw [h2] at h1
  simp only [List.sum_cons, List.sum_nil, Nat.add_zero] at h1
  simp only [PaUtil_GetRingBufferReadAvailable, RingBuffer.writeIndex] at hav
  have hdiv : (s.capture.written.length - p.delay.toNat) / p.frame_size.toNat
      = (callsOf s.trace).length := by
    rw [h4, hah, Nat.add_zero] at h1
    apply Nat.div_eq_of_lt_le
    · omega
    · rw [Nat.succ_mul]; omega
  refine ⟨hdiv.symm, ?_, ?_⟩
  · rw [hdiv]; omega
  · omega

set_option maxRecDepth 1000000 in
/-- The scenario of the spec up to the stall, through `frames_at_stall` and
`frame_pairing_without_stop`: after 36 statements `main` waits on CAPTURE with 40
elements available, has made `(1000 - 320) / 160 = 4` transform calls and writes, and
its first call received the CAPTURE samples 320..479 with the PLAYED samples 5000..5159. -/
theorem scenario_up_to_stall :
    (callsOf (exec scenarioParams (ticks 36) scenarioStart).trace).length = (1000 - 320) / 160 ∧
    workCount Work.publish (exec scenarioParams (ticks 36) scenarioStart).trace
      = (1000 - 320) / 160 ∧
    (∀ near far, (callsOf (exec scenarioParams (ticks 36) scenarioStart).trace)[0]?
        = some (near, far) →
      near = numbered 160 2 320 ∧ far = numbered 160 1 5000) := by
  have hs : ∀ a ∈ ticks 36, a.isSigint = false := by
    intro a ha
    rw [ticks, List.mem_replicate] at ha
    rw [ha.2]; rfl
  have h1 := frames_at_stall scenarioParams (ringOf 16384 (numbered 1000 2 0))
    (ringOf 16384 (numbered 1000 1 5000)) (ringOf 16384 []) (ticks 36) rfl rfl hs
    (Or.inr (by decide)) (by decide)
  have h2 := (frame_pairing_without_stop scenarioParams (ringOf 16384 (numbered 1000 2 0))
    (ringOf 16384 (numbered 1000 1 5000)) (ringOf 16384 []) (ticks 36) rfl rfl hs).1 0
  have e1 : (exec scenarioParams (ticks 36) (startState scenarioParams 0
      (ringOf 16384 (numbered 1000 2 0)) (ringOf 16384 (numbered 1000 1 5000))
      (ringOf 16384 []))).capture.written.length = 1000 := by decide
  have e2 : scenarioParams.delay.toNat = 320 := by decide
  have e3 : scenarioParams.frame_size.toNat = 160 := by decide
  rw [e1, e2, e3] at h1
  refine ⟨h1.1, h1.2.1, ?_⟩
  intro near far hk
  obtain ⟨hn, hf, -⟩ := h2 near far hk
  refine ⟨hn.trans ?_, hf.trans ?_⟩
  · decide
  · decide

/-! ## A stop request during a wait -/

/-- C2: in the small configuration (frame size 2, delay 3, CAPTURE holding the elements
0..7), `SIGINT` arrives while `main` is stalled in the wait on CAPTURE of the third
iteration with one element available. The third read of CAPTURE then delivers that
single element, and the third transform call receives as near-end frame that element
followed by the second element of the previous frame. -/
theorem stopped_wait_pairs_stale_frame :
    (exec smallParams (ticks 20) smallStart).pc = Pc.capSleep ∧
    PaUtil_GetRingBufferReadAvailable (exec smallParams (ticks 20) smallStart).capture = 1 ∧
    captureReads (exec smallParams (ticks 20 ++ [Act.sigint 2] ++ ticks 10) smallStart).trace
      = [[[3, 3], [4, 4]], [[5, 5], [6, 6]], [[7, 7]]] ∧
    callsOf (exec smallParams (ticks 20 ++ [Act.sigint 2] ++ ticks 10) smallStart).trace
      = [([[3, 3], [4, 4]], [[100], [101]]), ([[5, 5], [6, 6]], [[102], [103]]),
         ([[7, 7], [6, 6]], [[104], [105]])] ∧
    block (exec smallParams (ticks 20 ++ [Act.sigint 2] ++ ticks 10) smallStart).capture.written
      3 2 2 = [[7, 7]] := by
  decide

set_option maxRecDepth 1000000 in
/-- C4: in the scenario of the spec (sample rate 16000, frame size 160, delay 320, CAPTURE
holding the samples 0..999), after 36 statements `main` has discarded 320 elements,
called the transform 4 times and written 4 frames, and is stalled in the wait on CAPTURE
with 40 elements available. When `SIGINT` then arrives, `main` reads those 40 elements,
calls the transform a fifth time and writes a fifth frame before it exits. -/
theorem scenario_writes_fifth_frame :
    scenarioParams.frame_size = 160 ∧ scenarioParams.delay = 320 ∧
    (exec scenarioParams (ticks 36) scenarioStart).pc = Pc.capSleep ∧
    (exec scenarioParams (ticks 36) scenarioStart).g_is_quit = 0 ∧
    advances (exec scenarioParams (ticks 36) scenarioStart).trace = [320] ∧
    PaUtil_GetRingBufferReadAvailable (exec scenarioParams (ticks 36) scenarioStart).capture = 40 ∧
    workCount Work.transform (exec scenarioParams (ticks 36) scenarioStart).trace = 4 ∧
    workCount Work.publish (exec scenarioParams (ticks 36) scenarioStart).trace = 4 ∧
    (exec scenarioParams (ticks 36 ++ [Act.sigint 2] ++ ticks 10) scenarioStart).pc = Pc.exited ∧
    workCount Work.transform
      (exec scenarioParams (ticks 36 ++ [Act.sigint 2] ++ ticks 10) scenarioStart).trace = 5 ∧
    workCount Work.publish
      (exec scenarioParams (ticks 36 ++ [Act.sigint 2] ++ ticks 10) scenarioStart).trace = 5 ∧
    (exec scenarioParams (ticks 36 ++ [Act.sigint 2] ++ ticks 10) scenarioStart).processed.written.length
      = 800 ∧
    ((captureReads
      (exec scenarioParams (ticks 36 ++ [Act.sigint 2] ++ ticks 10) scenarioStart).trace).map
        List.length) = [160, 160, 160, 160, 40] := by
  decide

end Ec
